import Mathlib

/-!
Verification of the StudySync synchronization engine (`core/sync.py`).

The engine syncs "letter" files between a local folder, a per-user shared
store, and a local community mirror of other users' shared folders.  We give
a shallow embedding of the `SyncManager` methods:

* a file is its content (a `String`, standing for the byte string) together
  with a modification time (`Nat`);
* a directory is an association list from file names to files (`Folder`);
  `os.listdir` is iteration over that list, reading/writing a path is
  lookup/update by name;
* `shutil.copy2` copies content and preserves the modification time;
* MD5 hashing (`_get_file_hash`) is modelled as the identity on contents:
  two files have equal hashes iff they have equal bytes (the collision-free
  abstraction of a content digest used purely for change detection);
* `time.time()` is an explicit `now : Nat` argument supplied per run
  (the decision logic of the engine never reads the clock, it only records
  it in `last_sync_times`, so one value per run is faithful);
* the shared-store root is `Option`: `none` models "shared folder not
  configured or the path does not exist".

Python's `str.startswith`/`str.endswith` are modelled as prefix/suffix
tests on the character sequences of the strings.
-/

namespace StudySync

/-- A file on disk: its content (byte string) and modification time. -/
structure FileEntry where
  content : String
  mtime : Nat
deriving DecidableEq, Repr

/-- A directory: an association list from file names to files. -/
abbrev Folder := List (String × FileEntry)

/-- The engine's `last_sync_times` dictionary. -/
abbrev Ledger := List (String × Nat)

/-- Lookup by key in an association list (a dictionary / a file read). -/
def lookupA {α : Type} : List (String × α) → String → Option α
  | [], _ => none
  | (k', v) :: rest, k => if k = k' then some v else lookupA rest k

/-- Update-or-insert by key in an association list (a dictionary write /
a file write: an existing name is overwritten in place, a new name is
appended to the directory listing). -/
def updateA {α : Type} : List (String × α) → String → α → List (String × α)
  | [], k, v => [(k, v)]
  | (k', v') :: rest, k, v =>
    if k' = k then (k, v) :: rest else (k', v') :: updateA rest k v

/-- Python `s.endswith t`, as a suffix test on the character sequences. -/
def str_endswith (s t : String) : Bool := decide (t.data <:+ s.data)

/-- Python `s.startswith t`, as a prefix test on the character sequences. -/
def str_startswith (s t : String) : Bool := decide (t.data <+: s.data)

/-- `SyncManager._is_letter_file` (sync.py:295-298): a file name is a letter
file iff it starts with `"nova_letter_"` and ends with `".html"` or `".md"`. -/
def is_letter_file (filename : String) : Bool :=
  str_startswith filename "nova_letter_" &&
    (str_endswith filename ".html" || str_endswith filename ".md")

/-- `SyncManager._get_file_hash` (sync.py:282-293): the MD5 digest of the
file's bytes, or `None` when the file does not exist.  Modelled as the
content itself (a collision-free digest). -/
def get_file_hash : Option FileEntry → Option String
  | none => none
  | some f => some f.content

/-- The state of a `SyncManager` together with the file system it acts on:
the current username, the local letters folder, the shared store
(`none` when unset or nonexistent) as per-user folders, the local
`_community` mirror as per-user folders, and `last_sync_times`. -/
structure SyncState where
  username : String
  local_folder : Folder
  shared : Option (List (String × Folder))
  community : List (String × Folder)
  last_sync_times : Ledger
deriving DecidableEq, Repr

/-- `SyncManager._needs_sync` (sync.py:261-280).  `filename` is
`os.path.basename(source_path)`; `src` is the source file, `dst` the
destination file if it exists. -/
def needs_sync (last_sync_times : Ledger) (filename : String)
    (src : FileEntry) (dst : Option FileEntry) : Bool :=
  match dst with
  | none => true
  | some d =>
    match lookupA last_sync_times filename with
    | some lastSync => decide (src.mtime > lastSync) && decide (src.mtime > d.mtime)
    | none => decide (src.mtime > d.mtime)

/-- The `ShouldSync` decision rule, written from the spec's words (§4.2):
if the destination does not exist, always true; otherwise, with a prior
recorded sync time `t_last`, sync only if
`sourceModTime > t_last AND sourceModTime > destModTime`; with no prior
record, sync if `sourceModTime > destModTime`. -/
def needs_sync_spec (last_sync_times : Ledger) (filename : String)
    (src : FileEntry) (dst : Option FileEntry) : Bool :=
  if dst.isNone then true
  else
    match lookupA last_sync_times filename, dst with
    | some tLast, some d => decide (src.mtime > tLast ∧ src.mtime > d.mtime)
    | none, some d => decide (src.mtime > d.mtime)
    | _, none => true

/-- Loop body of `SyncManager._sync_local_to_shared` (sync.py:98-118):
walk the local listing; for each letter file that `_needs_sync` against the
user's shared folder, `shutil.copy2` it there, record `time.time()` in
`last_sync_times`, and count it. -/
def sync_local_to_shared_go (now : Nat) :
    List (String × FileEntry) → Folder → Ledger → Nat → Folder × Ledger × Nat
  | [], uf, ledger, count => (uf, ledger, count)
  | (filename, localFile) :: rest, uf, ledger, count =>
    if is_letter_file filename then
      if needs_sync ledger filename localFile (lookupA uf filename) then
        sync_local_to_shared_go now rest (updateA uf filename localFile)
          (updateA ledger filename now) (count + 1)
      else sync_local_to_shared_go now rest uf ledger count
    else sync_local_to_shared_go now rest uf ledger count

/-- `SyncManager._sync_local_to_shared` (sync.py:98-118). -/
def sync_local_to_shared (now : Nat) (localFolder uf : Folder) (ledger : Ledger) :
    Folder × Ledger × Nat :=
  sync_local_to_shared_go now localFolder uf ledger 0

/-- Accumulator of `_sync_shared_to_local`: the local folder, the community
mirror, the ledger and the incoming count, threaded through the loops. -/
structure P2State where
  local_folder : Folder
  community : List (String × Folder)
  ledger : Ledger
  count : Nat
deriving DecidableEq, Repr

/-- Own-file branch of `_sync_shared_to_local` (sync.py:173-200): if the
local copy exists, pull the shared copy down only when the hashes differ
and shared is strictly newer, first backing the local copy up to
`<filename>.local_backup`; if the local copy is missing, copy the shared
file down. -/
def sync_shared_to_local_own (now : Nat) (filename : String)
    (sharedFile : FileEntry) (st : P2State) : P2State :=
  match lookupA st.local_folder filename with
  | some localFile =>
    if get_file_hash (some sharedFile) ≠ get_file_hash (some localFile) ∧
        sharedFile.mtime > localFile.mtime then
      { st with
        local_folder :=
          updateA (updateA st.local_folder (filename ++ ".local_backup") localFile)
            filename sharedFile,
        ledger := updateA st.ledger filename now,
        count := st.count + 1 }
    else st
  | none =>
    { st with
      local_folder := updateA st.local_folder filename sharedFile,
      ledger := updateA st.ledger filename now,
      count := st.count + 1 }

/-- Foreign-file branch of `_sync_shared_to_local` (sync.py:201-213):
mirror another user's letter into `_community/<username>/` when
`_needs_sync` holds (note: `_needs_sync` keys the ledger lookup by the
bare basename, while the write below records `"<username>/<filename>"`). -/
def sync_shared_to_local_foreign (now : Nat) (username filename : String)
    (sharedFile : FileEntry) (st : P2State) : P2State :=
  if needs_sync st.ledger filename sharedFile
      (lookupA ((lookupA st.community username).getD []) filename) then
    { st with
      community := updateA st.community username
        (updateA ((lookupA st.community username).getD []) filename sharedFile),
      ledger := updateA st.ledger (username ++ "/" ++ filename) now,
      count := st.count + 1 }
  else st

/-- Inner loop of `_sync_shared_to_local` over one user folder's listing. -/
def sync_shared_to_local_folder (now : Nat) (selfUser username : String) :
    List (String × FileEntry) → P2State → P2State
  | [], st => st
  | (filename, f) :: rest, st =>
    if is_letter_file filename then
      sync_shared_to_local_folder now selfUser username rest
        (if username = selfUser then sync_shared_to_local_own now filename f st
         else sync_shared_to_local_foreign now username filename f st)
    else sync_shared_to_local_folder now selfUser username rest st

/-- Outer loop of `_sync_shared_to_local` over the shared store's user
folders (sync.py:160 `os.listdir(self.shared_folder)`). -/
def sync_shared_to_local_users (now : Nat) (selfUser : String) :
    List (String × Folder) → P2State → P2State
  | [], st => st
  | (username, folder) :: rest, st =>
    sync_shared_to_local_users now selfUser rest
      (sync_shared_to_local_folder now selfUser username folder st)

/-- `SyncManager._sync_shared_to_local` (sync.py:151-215). -/
def sync_shared_to_local (now : Nat) (selfUser : String)
    (store : List (String × Folder)) (lf : Folder)
    (comm : List (String × Folder)) (ledger : Ledger) : P2State :=
  sync_shared_to_local_users now selfUser store ⟨lf, comm, ledger, 0⟩

/-- Accumulator of `_detect_and_resolve_conflicts`: the local folder, the
user's shared folder, the ledger, and the conflict count. -/
structure P3State where
  local_folder : Folder
  user_folder : Folder
  ledger : Ledger
  count : Nat
deriving DecidableEq, Repr

/-- Per-file body of `_detect_and_resolve_conflicts` (sync.py:227-257):
for a local letter that also exists in the user's shared folder with a
different hash, the newer side wins; the loser is first copied to its
backup path (`.local_backup` beside the local file when shared wins,
`.shared_backup` beside the shared file when local wins), then
overwritten with the winner, and the resolution time is recorded. -/
def resolve_conflict_entry (now : Nat) (filename : String)
    (localFile : FileEntry) (st : P3State) : P3State :=
  match lookupA st.user_folder filename with
  | none => st
  | some sharedFile =>
    if get_file_hash (some localFile) ≠ get_file_hash (some sharedFile) then
      if sharedFile.mtime > localFile.mtime then
        { st with
          local_folder :=
            updateA (updateA st.local_folder (filename ++ ".local_backup") localFile)
              filename sharedFile,
          ledger := updateA st.ledger filename now,
          count := st.count + 1 }
      else
        { st with
          user_folder :=
            updateA (updateA st.user_folder (filename ++ ".shared_backup") sharedFile)
              filename localFile,
          ledger := updateA st.ledger filename now,
          count := st.count + 1 }
    else st

/-- Loop of `_detect_and_resolve_conflicts` over the local listing. -/
def detect_and_resolve_conflicts_go (now : Nat) :
    List (String × FileEntry) → P3State → P3State
  | [], st => st
  | (filename, f) :: rest, st =>
    if is_letter_file filename then
      detect_and_resolve_conflicts_go now rest (resolve_conflict_entry now filename f st)
    else detect_and_resolve_conflicts_go now rest st

/-- `SyncManager._detect_and_resolve_conflicts` (sync.py:217-259). -/
def detect_and_resolve_conflicts (now : Nat) (lf uf : Folder) (ledger : Ledger) : P3State :=
  detect_and_resolve_conflicts_go now lf ⟨lf, uf, ledger, 0⟩

/-- `os.makedirs(user_folder, exist_ok=True)` on the shared store: ensure
the current user's subfolder exists (a fresh one is appended to the
listing). -/
def ensure_user (store : List (String × Folder)) (username : String) :
    List (String × Folder) :=
  match lookupA store username with
  | some _ => store
  | none => store ++ [(username, [])]

/-- Result of one `bidirectional_sync` run: the final state, the three
phase counters (outgoing, incoming, conflicts — the numbers the Python
code computes and prints in its summary line), and the boolean the Python
function actually returns. -/
structure RunResult where
  state : SyncState
  pushed : Nat
  pulled : Nat
  conflicts : Nat
  returned : Bool
deriving DecidableEq, Repr

/-- `SyncManager.bidirectional_sync` (sync.py:120-149, the later of the two
definitions of that name, which is the one Python keeps): abort with
`False` when the shared store is unset or missing; otherwise ensure the
user's shared subfolder exists, run the three phases in order, and return
`True` iff any phase did work.  In this error-free model the
`try/except` wrapper never fires. -/
def bidirectional_sync (now : Nat) (s : SyncState) : RunResult :=
  match s.shared with
  | none => ⟨s, 0, 0, 0, false⟩
  | some store0 =>
    let store1 := ensure_user store0 s.username
    let uf1 := (lookupA store1 s.username).getD []
    let p1 := sync_local_to_shared now s.local_folder uf1 s.last_sync_times
    let store2 := updateA store1 s.username p1.1
    let p2 := sync_shared_to_local now s.username store2 s.local_folder
      s.community p1.2.1
    let p3 := detect_and_resolve_conflicts now p2.local_folder p1.1 p2.ledger
    let store3 := updateA store2 s.username p3.user_folder
    { state := { s with
        local_folder := p3.local_folder,
        shared := some store3,
        community := p2.community,
        last_sync_times := p3.ledger },
      pushed := p1.2.2,
      pulled := p2.count,
      conflicts := p3.count,
      returned := decide (0 < p1.2.2) || decide (0 < p2.count) || decide (0 < p3.count) }

/-- `SyncManager.sync_letter` (sync.py:332-366): push one dated letter to
the shared store, looking for the `.html` serialization first and falling
back to `.md`. -/
def sync_letter (now : Nat) (s : SyncState) (date_str : String) : SyncState × Bool :=
  match s.shared with
  | none => (s, false)
  | some store0 =>
    let htmlName := "nova_letter_" ++ date_str ++ ".html"
    let mdName := "nova_letter_" ++ date_str ++ ".md"
    let letterChoice : Option (String × FileEntry) :=
      match lookupA s.local_folder htmlName with
      | some f => some (htmlName, f)
      | none =>
        match lookupA s.local_folder mdName with
        | some f => some (mdName, f)
        | none => none
    match letterChoice with
    | none => (s, false)
    | some (name, f) =>
      let store1 := ensure_user store0 s.username
      let uf := (lookupA store1 s.username).getD []
      let store2 := updateA store1 s.username (updateA uf name f)
      ({ s with
          shared := some store2,
          last_sync_times := updateA s.last_sync_times name now }, true)

/-- Fault-injecting variant of the `_sync_local_to_shared` loop: the
`shutil.copy2` of any file name in `failing` raises an `OSError`.  The
exception aborts the loop (the remaining local files are not examined);
files already copied stay copied, and no ledger entry is written for the
failing file since `copy2` raises first.  The final `Bool` records
whether an exception escaped the loop. -/
def sync_local_to_shared_go_f (failing : List String) (now : Nat) :
    List (String × FileEntry) → Folder → Ledger → Nat → Folder × Ledger × Nat × Bool
  | [], uf, ledger, count => (uf, ledger, count, false)
  | (filename, localFile) :: rest, uf, ledger, count =>
    if is_letter_file filename then
      if needs_sync ledger filename localFile (lookupA uf filename) then
        if filename ∈ failing then (uf, ledger, count, true)
        else
          sync_local_to_shared_go_f failing now rest (updateA uf filename localFile)
            (updateA ledger filename now) (count + 1)
      else sync_local_to_shared_go_f failing now rest uf ledger count
    else sync_local_to_shared_go_f failing now rest uf ledger count

/-- `bidirectional_sync` with an I/O fault injected into the push phase
(sync.py:120-149 with a `copy2` failure inside `_sync_local_to_shared`).
The exception propagates out of `_sync_local_to_shared` into the
`try/except` of `bidirectional_sync`, which catches it and returns
`False`: the pull and conflict phases never run, and the caller sees a
normal `False` return, not an exception. -/
def bidirectional_sync_f (failing : List String) (now : Nat) (s : SyncState) : RunResult :=
  match s.shared with
  | none => ⟨s, 0, 0, 0, false⟩
  | some store0 =>
    let store1 := ensure_user store0 s.username
    let uf1 := (lookupA store1 s.username).getD []
    let p1 := sync_local_to_shared_go_f failing now s.local_folder uf1 s.last_sync_times 0
    let store2 := updateA store1 s.username p1.1
    if p1.2.2.2 then
      ⟨{ s with shared := some store2, last_sync_times := p1.2.1 },
        p1.2.2.1, 0, 0, false⟩
    else
      let p2 := sync_shared_to_local now s.username store2 s.local_folder
        s.community p1.2.1
      let p3 := detect_and_resolve_conflicts now p2.local_folder p1.1 p2.ledger
      let store3 := updateA store2 s.username p3.user_folder
      { state := { s with
          local_folder := p3.local_folder,
          shared := some store3,
          community := p2.community,
          last_sync_times := p3.ledger },
        pushed := p1.2.2.1,
        pulled := p2.count,
        conflicts := p3.count,
        returned := decide (0 < p1.2.2.1) || decide (0 < p2.count) || decide (0 < p3.count) }

/-- Well-formedness of a directory listing: no duplicate file names, and no
file name contains a path separator. -/
def WFfolder (d : Folder) : Prop :=
  (d.map Prod.fst).Nodup ∧ ∀ p ∈ d, '/' ∉ p.1.data

/-- Well-formedness of a sync state: the local folder, the shared store's
user listing and each shared user folder are well-formed directory
listings.  These hold of any real file system. -/
def WF (s : SyncState) : Prop :=
  WFfolder s.local_folder ∧
    ((s.shared.getD []).map Prod.fst).Nodup ∧
    ∀ p ∈ s.shared.getD [], WFfolder p.2

instance : DecidablePred WFfolder := fun d => by
  unfold WFfolder; infer_instance

instance : DecidablePred WF := fun s => by
  unfold WF; infer_instance

/-- A sync state is *quiet* when a pass has nothing left to do: the user has
a folder in the shared store, no local letter needs a push, no shared own
letter beats its local counterpart (and each agrees with it in content), and
every foreign shared letter is already mirrored or too old to pull.  A run
on a quiet state is an exact no-op, and every run leaves a quiet state
behind; together these give idempotence of `bidirectional_sync`. -/
def Quiet (s : SyncState) : Prop :=
  ∀ store, s.shared = some store →
    ∃ uf, lookupA store s.username = some uf ∧
      (∀ e ∈ s.local_folder, is_letter_file e.1 = true →
        needs_sync s.last_sync_times e.1 e.2 (lookupA uf e.1) = false) ∧
      (∀ p ∈ store, p.1 = s.username → ∀ e ∈ p.2, is_letter_file e.1 = true →
        ∃ lf, lookupA s.local_folder e.1 = some lf ∧
          ¬(get_file_hash (some e.2) ≠ get_file_hash (some lf) ∧
            e.2.mtime > lf.mtime)) ∧
      (∀ p ∈ store, p.1 ≠ s.username → ∀ e ∈ p.2, is_letter_file e.1 = true →
        needs_sync s.last_sync_times e.1 e.2
          (lookupA ((lookupA s.community p.1).getD []) e.1) = false) ∧
      (∀ e ∈ s.local_folder, is_letter_file e.1 = true →
        ∀ sf, lookupA uf e.1 = some sf → e.2.content = sf.content)

/-! ### Association list toolkit -/

theorem lookupA_updateA_self {α : Type} (l : List (String × α)) (k : String) (v : α) :
    lookupA (updateA l k v) k = some v := by
  induction l with
  | nil => simp [updateA, lookupA]
  | cons p rest ih =>
    obtain ⟨a, b⟩ := p
    by_cases h : a = k
    · subst h
      rw [updateA, if_pos rfl, lookupA, if_pos rfl]
    · rw [updateA, if_neg h, lookupA, if_neg (fun hh : k = a => h hh.symm)]
      exact ih

theorem lookupA_updateA_ne {α : Type} (l : List (String × α)) (k k' : String) (v : α)
    (h : k' ≠ k) : lookupA (updateA l k v) k' = lookupA l k' := by
  induction l with
  | nil => simp [updateA, lookupA, h]
  | cons p rest ih =>
    obtain ⟨a, b⟩ := p
    by_cases ha : a = k
    · subst ha
      rw [updateA, if_pos rfl, lookupA, if_neg h, lookupA, if_neg h]
    · rw [updateA, if_neg ha, lookupA, lookupA]
      by_cases hk : k' = a
      · rw [if_pos hk, if_pos hk]
      · rw [if_neg hk, if_neg hk]
        exact ih

theorem updateA_lookupA_eq {α : Type} (l : List (String × α)) (k : String) (v : α)
    (h : lookupA l k = some v) : updateA l k v = l := by
  induction l with
  | nil => simp [lookupA] at h
  | cons p rest ih =>
    obtain ⟨a, b⟩ := p
    by_cases ha : k = a
    · subst ha
      rw [lookupA, if_pos rfl] at h
      simp only [Option.some.injEq] at h
      rw [updateA, if_pos rfl, h]
    · rw [lookupA, if_neg ha] at h
      rw [updateA, if_neg (fun hh : a = k => ha hh.symm), ih h]

theorem lookupA_mem {α : Type} {l : List (String × α)} {k : String} {v : α}
    (h : lookupA l k = some v) : (k, v) ∈ l := by
  induction l with
  | nil => simp [lookupA] at h
  | cons p rest ih =>
    obtain ⟨a, b⟩ := p
    by_cases ha : k = a
    · subst ha
      rw [lookupA, if_pos rfl] at h
      simp only [Option.some.injEq] at h
      simp [h]
    · rw [lookupA, if_neg ha] at h
      exact List.mem_cons_of_mem _ (ih h)

theorem mem_lookupA {α : Type} {l : List (String × α)} {k : String} {v : α}
    (hmem : (k, v) ∈ l) (hnd : (l.map Prod.fst).Nodup) : lookupA l k = some v := by
  induction l with
  | nil => simp at hmem
  | cons p rest ih =>
    obtain ⟨a, b⟩ := p
    rw [List.map_cons] at hnd
    have h1 := (List.nodup_cons.mp hnd).1
    have h2 := (List.nodup_cons.mp hnd).2
    rcases List.mem_cons.mp hmem with h | h
    · have hk : k = a := congrArg Prod.fst h
      have hv : v = b := congrArg Prod.snd h
      subst hk; subst hv
      rw [lookupA, if_pos rfl]
    · have hka : k ≠ a := by
        rintro rfl
        exact h1 (List.mem_map.mpr ⟨(k, v), h, rfl⟩)
      rw [lookupA, if_neg hka]
      exact ih h h2

theorem lookupA_none_of_not_mem {α : Type} {l : List (String × α)} {k : String}
    (h : k ∉ l.map Prod.fst) : lookupA l k = none := by
  induction l with
  | nil => simp [lookupA]
  | cons p rest ih =>
    obtain ⟨a, b⟩ := p
    rw [List.map_cons, List.mem_cons] at h
    push_neg at h
    rw [lookupA, if_neg h.1]
    exact ih h.2

theorem lookupA_some_mem_keys {α : Type} {l : List (String × α)} {k : String} {v : α}
    (h : lookupA l k = some v) : k ∈ l.map Prod.fst :=
  List.mem_map.mpr ⟨(k, v), lookupA_mem h, rfl⟩

theorem mem_updateA {α : Type} {l : List (String × α)} {k : String} {v : α} {p : String × α}
    (h : p ∈ updateA l k v) : p = (k, v) ∨ p ∈ l := by
  induction l with
  | nil => simp [updateA] at h; simp [h]
  | cons q rest ih =>
    obtain ⟨a, b⟩ := q
    by_cases ha : a = k
    · subst ha
      rcases List.mem_cons.mp (by simpa [updateA] using h) with h' | h'
      · exact Or.inl h'
      · exact Or.inr (List.mem_cons_of_mem _ h')
    · rcases List.mem_cons.mp (by simpa [updateA, ha] using h) with h' | h'
      · exact Or.inr (by simp [h'])
      · rcases ih h' with h'' | h''
        · exact Or.inl h''
        · exact Or.inr (List.mem_cons_of_mem _ h'')

theorem keys_updateA_subset {α : Type} {l : List (String × α)} {k k' : String} {v : α}
    (h : k' ∈ (updateA l k v).map Prod.fst) : k' = k ∨ k' ∈ l.map Prod.fst := by
  rcases List.mem_map.mp h with ⟨p, hp, rfl⟩
  rcases mem_updateA hp with h' | h'
  · left; rw [h']
  · right; exact List.mem_map.mpr ⟨p, h', rfl⟩

theorem nodup_updateA {α : Type} {l : List (String × α)} (k : String) (v : α)
    (h : (l.map Prod.fst).Nodup) : ((updateA l k v).map Prod.fst).Nodup := by
  induction l with
  | nil => simp [updateA]
  | cons p rest ih =>
    obtain ⟨a, b⟩ := p
    rw [List.map_cons] at h
    have h1 := (List.nodup_cons.mp h).1
    have h2 := (List.nodup_cons.mp h).2
    by_cases ha : a = k
    · subst ha
      rw [updateA, if_pos rfl, List.map_cons]
      exact List.nodup_cons.mpr ⟨h1, h2⟩
    · rw [updateA, if_neg ha, List.map_cons]
      refine List.nodup_cons.mpr ⟨?_, ih h2⟩
      intro hmem
      rcases keys_updateA_subset hmem with h' | h'
      · exact ha h'
      · exact h1 h'

/-! ### String facts: letter names, backup names, community ledger keys -/

theorem str_endswith_iff {s t : String} : str_endswith s t = true ↔ t.data <:+ s.data := by
  simp [str_endswith]

theorem getLast_of_suffix {s t : List Char} (h : t <:+ s) (ht : t ≠ []) :
    s.getLast? = t.getLast? := by
  obtain ⟨u, rfl⟩ := h
  exact List.getLast?_append_of_ne_nil u ht

/-- A letter file name ends in the character `d` or `l`. -/
theorem letter_getLast {f : String} (h : is_letter_file f = true) :
    f.data.getLast? = some 'd' ∨ f.data.getLast? = some 'l' := by
  simp only [is_letter_file, Bool.and_eq_true, Bool.or_eq_true] at h
  rcases h.2 with h' | h'
  · right
    rw [getLast_of_suffix (str_endswith_iff.mp h') (by decide)]
    decide
  · left
    rw [getLast_of_suffix (str_endswith_iff.mp h') (by decide)]
    decide

theorem append_getLast (a t : String) (ht : t.data ≠ []) :
    (a ++ t).data.getLast? = t.data.getLast? := by
  rw [String.data_append]
  exact List.getLast?_append_of_ne_nil _ ht

/-- A letter file name is never a `.local_backup` name. -/
theorem letter_ne_local_backup {f : String} (h : is_letter_file f = true) (g : String) :
    f ≠ g ++ ".local_backup" := by
  intro hEq
  have hl := letter_getLast h
  rw [hEq, append_getLast g ".local_backup" (by decide)] at hl
  rcases hl with h' | h' <;> simp at h'

/-- A letter file name is never a `.shared_backup` name. -/
theorem letter_ne_shared_backup {f : String} (h : is_letter_file f = true) (g : String) :
    f ≠ g ++ ".shared_backup" := by
  intro hEq
  have hl := letter_getLast h
  rw [hEq, append_getLast g ".shared_backup" (by decide)] at hl
  rcases hl with h' | h' <;> simp at h'

/-- Appending the same nonempty suffix is injective on the base name. -/
theorem append_suffix_inj {a b : String} (t : String) (h : a ++ t = b ++ t) : a = b := by
  have : a.data ++ t.data = b.data ++ t.data := by
    rw [← String.data_append, ← String.data_append, h]
  exact String.ext (List.append_cancel_right this)

/-- A slash-free file name is never a community ledger key `user ++ "/" ++ name`. -/
theorem slashfree_ne_comm_key {f : String} (hf : '/' ∉ f.data) (u g : String) :
    f ≠ u ++ "/" ++ g := by
  intro hEq
  apply hf
  rw [hEq, String.data_append, String.data_append]
  exact List.mem_append.mpr (Or.inl (List.mem_append.mpr (Or.inr (by decide))))

/-! ### Ledger evolution within a run -/

/-- All ledger writes during a run store the run's clock value `now`:
every key either keeps its old value or maps to `now`, and no key is
ever removed. -/
def LedgerEvol (now : Nat) (L L' : Ledger) : Prop :=
  ∀ k, (lookupA L' k = lookupA L k ∨ lookupA L' k = some now) ∧
    (lookupA L k ≠ none → lookupA L' k ≠ none)

theorem ledgerEvol_refl (now : Nat) (L : Ledger) : LedgerEvol now L L :=
  fun _ => ⟨Or.inl rfl, fun h => h⟩

theorem ledgerEvol_trans {now : Nat} {L₁ L₂ L₃ : Ledger}
    (h₁ : LedgerEvol now L₁ L₂) (h₂ : LedgerEvol now L₂ L₃) : LedgerEvol now L₁ L₃ := by
  intro k
  refine ⟨?_, fun hne => (h₂ k).2 ((h₁ k).2 hne)⟩
  rcases (h₂ k).1 with h | h
  · rw [h]; exact (h₁ k).1
  · exact Or.inr h

theorem ledgerEvol_update {now : Nat} (L : Ledger) (k : String) :
    LedgerEvol now L (updateA L k now) := by
  intro k'
  by_cases h : k' = k
  · subst h
    refine ⟨Or.inr (lookupA_updateA_self ..), fun _ => ?_⟩
    simp [lookupA_updateA_self]
  · rw [lookupA_updateA_ne _ _ _ _ h]
    exact ⟨Or.inl rfl, fun h => h⟩

theorem ledgerEvol_bound {now : Nat} {L L' : Ledger}
    (hb : ∀ p ∈ L, p.2 ≤ now) (he : LedgerEvol now L L') {k : String} {t : Nat}
    (hl : lookupA L' k = some t) : t ≤ now := by
  rcases (he k).1 with h | h
  · exact hb (k, t) (lookupA_mem (h ▸ hl))
  · rw [hl] at h
    simp only [Option.some.injEq] at h
    omega

theorem updateA_mono {α : Type} {l : List (String × α)} {name : String} {v : α}
    (k : String) (w : α) (h : lookupA l name = some v) :
    ∃ v', lookupA (updateA l k w) name = some v' := by
  by_cases hk : name = k
  · subst hk
    exact ⟨w, lookupA_updateA_self ..⟩
  · exact ⟨v, by rw [lookupA_updateA_ne _ _ _ _ hk]; exact h⟩

/-! ### Phase 1 (`_sync_local_to_shared`) characterization -/

/-- `_needs_sync` reads the ledger only at the file's own key. -/
theorem needs_sync_congr (L L' : Ledger) (f : String) (src : FileEntry)
    (dst : Option FileEntry) (h : lookupA L' f = lookupA L f) :
    needs_sync L' f src dst = needs_sync L f src dst := by
  cases dst with
  | none => rfl
  | some d => rw [needs_sync, needs_sync, h]

theorem p1_frame (now : Nat) (entries : List (String × FileEntry)) (uf : Folder)
    (ledger : Ledger) (c : Nat) (name : String)
    (h : ∀ e ∈ entries, is_letter_file e.1 = true → e.1 ≠ name) :
    lookupA (sync_local_to_shared_go now entries uf ledger c).1 name = lookupA uf name ∧
    lookupA (sync_local_to_shared_go now entries uf ledger c).2.1 name =
      lookupA ledger name := by
  induction entries generalizing uf ledger c with
  | nil => exact ⟨rfl, rfl⟩
  | cons e rest ih =>
    obtain ⟨g, gfile⟩ := e
    have hrest : ∀ e ∈ rest, is_letter_file e.1 = true → e.1 ≠ name :=
      fun e he => h e (List.mem_cons_of_mem _ he)
    by_cases hg : is_letter_file g
    · have hne : g ≠ name := h (g, gfile) (List.mem_cons_self ..) hg
      rw [sync_local_to_shared_go, if_pos hg]
      by_cases hn : needs_sync ledger g gfile (lookupA uf g) = true
      · rw [if_pos hn]
        have := ih (updateA uf g gfile) (updateA ledger g now) (c + 1) hrest
        rw [this.1, this.2, lookupA_updateA_ne _ _ _ _ (fun hh => hne hh.symm),
          lookupA_updateA_ne _ _ _ _ (fun hh => hne hh.symm)]
        exact ⟨rfl, rfl⟩
      · rw [if_neg hn]
        exact ih uf ledger c hrest
    · rw [sync_local_to_shared_go, if_neg hg]
      exact ih uf ledger c hrest

theorem p1_point (now : Nat) (entries : List (String × FileEntry)) (uf : Folder)
    (ledger : Ledger) (c : Nat) (f : String) (file : FileEntry)
    (hnd : (entries.map Prod.fst).Nodup) (hmem : (f, file) ∈ entries)
    (hletter : is_letter_file f = true) :
    (needs_sync ledger f file (lookupA uf f) = true →
      lookupA (sync_local_to_shared_go now entries uf ledger c).1 f = some file ∧
      lookupA (sync_local_to_shared_go now entries uf ledger c).2.1 f = some now) ∧
    (needs_sync ledger f file (lookupA uf f) = false →
      lookupA (sync_local_to_shared_go now entries uf ledger c).1 f = lookupA uf f ∧
      lookupA (sync_local_to_shared_go now entries uf ledger c).2.1 f =
        lookupA ledger f) := by
  induction entries generalizing uf ledger c with
  | nil => simp at hmem
  | cons e rest ih =>
    obtain ⟨g, gfile⟩ := e
    rw [List.map_cons] at hnd
    have hnd1 := (List.nodup_cons.mp hnd).1
    have hnd2 := (List.nodup_cons.mp hnd).2
    by_cases hgf : g = f
    · subst hgf
      have hfile : gfile = file := by
        rcases List.mem_cons.mp hmem with h | h
        · exact (congrArg Prod.snd h).symm
        · exact absurd (List.mem_map.mpr ⟨(g, file), h, rfl⟩) hnd1
      subst hfile
      have hframe : ∀ e ∈ rest, is_letter_file e.1 = true → e.1 ≠ g := by
        intro e he _ heq
        exact hnd1 (List.mem_map.mpr ⟨e, he, heq⟩)
      rw [sync_local_to_shared_go, if_pos hletter]
      constructor
      · intro hn
        rw [if_pos hn]
        have := p1_frame now rest (updateA uf g gfile) (updateA ledger g now) (c + 1) g hframe
        rw [this.1, this.2, lookupA_updateA_self, lookupA_updateA_self]
        exact ⟨rfl, rfl⟩
      · intro hn
        rw [if_neg (by rw [hn]; exact Bool.false_ne_true)]
        have := p1_frame now rest uf ledger c g hframe
        exact ⟨this.1, this.2⟩
    · have hmem' : (f, file) ∈ rest := by
        rcases List.mem_cons.mp hmem with h | h
        · exact absurd (congrArg Prod.fst h).symm hgf
        · exact h
      by_cases hg : is_letter_file g
      · rw [sync_local_to_shared_go, if_pos hg]
        by_cases hn : needs_sync ledger g gfile (lookupA uf g) = true
        · rw [if_pos hn]
          have hufg : lookupA (updateA uf g gfile) f = lookupA uf f :=
            lookupA_updateA_ne _ _ _ _ (fun hh => hgf hh.symm)
          have hledg : lookupA (updateA ledger g now) f = lookupA ledger f :=
            lookupA_updateA_ne _ _ _ _ (fun hh => hgf hh.symm)
          have hdec : needs_sync (updateA ledger g now) f file
              (lookupA (updateA uf g gfile) f) = needs_sync ledger f file (lookupA uf f) := by
            rw [needs_sync_congr _ _ _ _ _ hledg, hufg]
          have := ih (updateA uf g gfile) (updateA ledger g now) (c + 1) hnd2 hmem'
          constructor
          · intro hns
            exact this.1 (by rw [hdec]; exact hns)
          · intro hns
            rcases this.2 (by rw [hdec]; exact hns) with ⟨h1, h2⟩
            exact ⟨h1.trans hufg, h2.trans hledg⟩
        · rw [if_neg hn]
          exact ih uf ledger c hnd2 hmem'
      · rw [sync_local_to_shared_go, if_neg hg]
        exact ih uf ledger c hnd2 hmem'

theorem p1_zero (now : Nat) (entries : List (String × FileEntry)) (uf : Folder)
    (ledger : Ledger) (c : Nat)
    (h : ∀ e ∈ entries, is_letter_file e.1 = true →
      needs_sync ledger e.1 e.2 (lookupA uf e.1) = false) :
    sync_local_to_shared_go now entries uf ledger c = (uf, ledger, c) := by
  induction entries with
  | nil => rfl
  | cons e rest ih =>
    obtain ⟨g, gfile⟩ := e
    by_cases hg : is_letter_file g
    · rw [sync_local_to_shared_go, if_pos hg,
        if_neg (by rw [h (g, gfile) (List.mem_cons_self ..) hg]; exact Bool.false_ne_true)]
      exact ih (fun e he => h e (List.mem_cons_of_mem _ he))
    · rw [sync_local_to_shared_go, if_neg hg]
      exact ih (fun e he => h e (List.mem_cons_of_mem _ he))

theorem p1_evol (now : Nat) (entries : List (String × FileEntry)) (uf : Folder)
    (ledger : Ledger) (c : Nat) :
    LedgerEvol now ledger (sync_local_to_shared_go now entries uf ledger c).2.1 := by
  induction entries generalizing uf ledger c with
  | nil => exact ledgerEvol_refl now ledger
  | cons e rest ih =>
    obtain ⟨g, gfile⟩ := e
    by_cases hg : is_letter_file g
    · rw [sync_local_to_shared_go, if_pos hg]
      by_cases hn : needs_sync ledger g gfile (lookupA uf g) = true
      · rw [if_pos hn]
        exact ledgerEvol_trans (ledgerEvol_update ledger g) (ih _ _ _)
      · rw [if_neg hn]
        exact ih _ _ _
    · rw [sync_local_to_shared_go, if_neg hg]
      exact ih _ _ _

theorem p1_nodup (now : Nat) (entries : List (String × FileEntry)) (uf : Folder)
    (ledger : Ledger) (c : Nat) (h : (uf.map Prod.fst).Nodup) :
    (((sync_local_to_shared_go now entries uf ledger c).1).map Prod.fst).Nodup := by
  induction entries generalizing uf ledger c with
  | nil => exact h
  | cons e rest ih =>
    obtain ⟨g, gfile⟩ := e
    by_cases hg : is_letter_file g
    · rw [sync_local_to_shared_go, if_pos hg]
      by_cases hn : needs_sync ledger g gfile (lookupA uf g) = true
      · rw [if_pos hn]
        exact ih _ _ _ (nodup_updateA _ _ h)
      · rw [if_neg hn]
        exact ih _ _ _ h
    · rw [sync_local_to_shared_go, if_neg hg]
      exact ih _ _ _ h

theorem p1_mem (now : Nat) (entries : List (String × FileEntry)) (uf : Folder)
    (ledger : Ledger) (c : Nat) (p : String × FileEntry)
    (h : p ∈ (sync_local_to_shared_go now entries uf ledger c).1) :
    p ∈ uf ∨ p ∈ entries := by
  induction entries generalizing uf ledger c with
  | nil => exact Or.inl h
  | cons e rest ih =>
    obtain ⟨g, gfile⟩ := e
    by_cases hg : is_letter_file g
    · rw [sync_local_to_shared_go, if_pos hg] at h
      by_cases hn : needs_sync ledger g gfile (lookupA uf g) = true
      · rw [if_pos hn] at h
        rcases ih _ _ _ h with h' | h'
        · rcases mem_updateA h' with h'' | h''
          · exact Or.inr (h'' ▸ List.mem_cons_self ..)
          · exact Or.inl h''
        · exact Or.inr (List.mem_cons_of_mem _ h')
      · rw [if_neg hn] at h
        rcases ih _ _ _ h with h' | h'
        · exact Or.inl h'
        · exact Or.inr (List.mem_cons_of_mem _ h')
    · rw [sync_local_to_shared_go, if_neg hg] at h
      rcases ih _ _ _ h with h' | h'
      · exact Or.inl h'
      · exact Or.inr (List.mem_cons_of_mem _ h')

theorem p1_mono (now : Nat) (entries : List (String × FileEntry)) (uf : Folder)
    (ledger : Ledger) (c : Nat) (name : String) (v : FileEntry)
    (h : lookupA uf name = some v) :
    ∃ v', lookupA (sync_local_to_shared_go now entries uf ledger c).1 name = some v' := by
  induction entries generalizing uf ledger c v with
  | nil => exact ⟨v, h⟩
  | cons e rest ih =>
    obtain ⟨g, gfile⟩ := e
    by_cases hg : is_letter_file g
    · rw [sync_local_to_shared_go, if_pos hg]
      by_cases hn : needs_sync ledger g gfile (lookupA uf g) = true
      · rw [if_pos hn]
        rcases updateA_mono g gfile h with ⟨w, hw⟩
        exact ih _ _ _ _ hw
      · rw [if_neg hn]
        exact ih _ _ _ _ h
    · rw [sync_local_to_shared_go, if_neg hg]
      exact ih _ _ _ _ h

/-! ### Phase 3 (`_detect_and_resolve_conflicts`) characterization -/

theorem get_file_hash_ne_iff (x y : FileEntry) :
    (get_file_hash (some x) ≠ get_file_hash (some y)) ↔ x.content ≠ y.content := by
  simp [get_file_hash]

theorem rce_none (now : Nat) (f : String) (lfile : FileEntry) (st : P3State)
    (hU : lookupA st.user_folder f = none) :
    resolve_conflict_entry now f lfile st = st := by
  rw [resolve_conflict_entry, hU]

theorem rce_some (now : Nat) (f : String) (lfile sfile : FileEntry) (st : P3State)
    (hU : lookupA st.user_folder f = some sfile) :
    resolve_conflict_entry now f lfile st =
      if get_file_hash (some lfile) ≠ get_file_hash (some sfile) then
        if sfile.mtime > lfile.mtime then
          { st with
            local_folder :=
              updateA (updateA st.local_folder (f ++ ".local_backup") lfile) f sfile,
            ledger := updateA st.ledger f now,
            count := st.count + 1 }
        else
          { st with
            user_folder :=
              updateA (updateA st.user_folder (f ++ ".shared_backup") sfile) f lfile,
            ledger := updateA st.ledger f now,
            count := st.count + 1 }
      else st := by
  rw [resolve_conflict_entry, hU]

theorem rce_frame_local (now : Nat) (f : String) (lfile : FileEntry) (st : P3State)
    (name : String) (h1 : name ≠ f) (h2 : name ≠ f ++ ".local_backup") :
    lookupA (resolve_conflict_entry now f lfile st).local_folder name =
      lookupA st.local_folder name := by
  cases hU : lookupA st.user_folder f with
  | none => rw [rce_none now f lfile st hU]
  | some sfile =>
    rw [rce_some now f lfile sfile st hU]
    by_cases hd : get_file_hash (some lfile) ≠ get_file_hash (some sfile)
    · rw [if_pos hd]
      by_cases hm : sfile.mtime > lfile.mtime
      · rw [if_pos hm]
        simp only
        rw [lookupA_updateA_ne _ _ _ _ h1, lookupA_updateA_ne _ _ _ _ h2]
      · rw [if_neg hm]
    · rw [if_neg hd]

theorem rce_frame_uf (now : Nat) (f : String) (lfile : FileEntry) (st : P3State)
    (name : String) (h1 : name ≠ f) (h2 : name ≠ f ++ ".shared_backup") :
    lookupA (resolve_conflict_entry now f lfile st).user_folder name =
      lookupA st.user_folder name := by
  cases hU : lookupA st.user_folder f with
  | none => rw [rce_none now f lfile st hU]
  | some sfile =>
    rw [rce_some now f lfile sfile st hU]
    by_cases hd : get_file_hash (some lfile) ≠ get_file_hash (some sfile)
    · rw [if_pos hd]
      by_cases hm : sfile.mtime > lfile.mtime
      · rw [if_pos hm]
      · rw [if_neg hm]
        simp only
        rw [lookupA_updateA_ne _ _ _ _ h1, lookupA_updateA_ne _ _ _ _ h2]
    · rw [if_neg hd]

theorem rce_frame_ledger (now : Nat) (f : String) (lfile : FileEntry) (st : P3State)
    (name : String) (h1 : name ≠ f) :
    lookupA (resolve_conflict_entry now f lfile st).ledger name =
      lookupA st.ledger name := by
  cases hU : lookupA st.user_folder f with
  | none => rw [rce_none now f lfile st hU]
  | some sfile =>
    rw [rce_some now f lfile sfile st hU]
    by_cases hd : get_file_hash (some lfile) ≠ get_file_hash (some sfile)
    · rw [if_pos hd]
      by_cases hm : sfile.mtime > lfile.mtime
      · rw [if_pos hm]
        simp only
        rw [lookupA_updateA_ne _ _ _ _ h1]
      · rw [if_neg hm]
        simp only
        rw [lookupA_updateA_ne _ _ _ _ h1]
    · rw [if_neg hd]

theorem p3_frame_local (now : Nat) (entries : List (String × FileEntry)) (st : P3State)
    (name : String)
    (h : ∀ e ∈ entries, is_letter_file e.1 = true →
      name ≠ e.1 ∧ name ≠ e.1 ++ ".local_backup") :
    lookupA (detect_and_resolve_conflicts_go now entries st).local_folder name =
      lookupA st.local_folder name := by
  induction entries generalizing st with
  | nil => rfl
  | cons e rest ih =>
    obtain ⟨g, gfile⟩ := e
    by_cases hg : is_letter_file g
    · rw [detect_and_resolve_conflicts_go, if_pos hg]
      have hh := h (g, gfile) (List.mem_cons_self ..) hg
      rw [ih _ (fun e he => h e (List.mem_cons_of_mem _ he)),
        rce_frame_local _ _ _ _ _ hh.1 hh.2]
    · rw [detect_and_resolve_conflicts_go, if_neg hg]
      exact ih _ (fun e he => h e (List.mem_cons_of_mem _ he))

theorem p3_frame_uf (now : Nat) (entries : List (String × FileEntry)) (st : P3State)
    (name : String)
    (h : ∀ e ∈ entries, is_letter_file e.1 = true →
      name ≠ e.1 ∧ name ≠ e.1 ++ ".shared_backup") :
    lookupA (detect_and_resolve_conflicts_go now entries st).user_folder name =
      lookupA st.user_folder name := by
  induction entries generalizing st with
  | nil => rfl
  | cons e rest ih =>
    obtain ⟨g, gfile⟩ := e
    by_cases hg : is_letter_file g
    · rw [detect_and_resolve_conflicts_go, if_pos hg]
      have hh := h (g, gfile) (List.mem_cons_self ..) hg
      rw [ih _ (fun e he => h e (List.mem_cons_of_mem _ he)),
        rce_frame_uf _ _ _ _ _ hh.1 hh.2]
    · rw [detect_and_resolve_conflicts_go, if_neg hg]
      exact ih _ (fun e he => h e (List.mem_cons_of_mem _ he))

theorem p3_frame_ledger (now : Nat) (entries : List (String × FileEntry)) (st : P3State)
    (name : String)
    (h : ∀ e ∈ entries, is_letter_file e.1 = true → name ≠ e.1) :
    lookupA (detect_and_resolve_conflicts_go now entries st).ledger name =
      lookupA st.ledger name := by
  induction entries generalizing st with
  | nil => rfl
  | cons e rest ih =>
    obtain ⟨g, gfile⟩ := e
    by_cases hg : is_letter_file g
    · rw [detect_and_resolve_conflicts_go, if_pos hg]
      rw [ih _ (fun e he => h e (List.mem_cons_of_mem _ he)),
        rce_frame_ledger _ _ _ _ _ (h (g, gfile) (List.mem_cons_self ..) hg)]
    · rw [detect_and_resolve_conflicts_go, if_neg hg]
      exact ih _ (fun e he => h e (List.mem_cons_of_mem _ he))

theorem p3_point (now : Nat) (entries : List (String × FileEntry)) (st : P3State)
    (f : String) (lfile : FileEntry)
    (hnd : (entries.map Prod.fst).Nodup) (hmem : (f, lfile) ∈ entries)
    (hletter : is_letter_file f = true) :
    (lookupA st.user_folder f = none →
      lookupA (detect_and_resolve_conflicts_go now entries st).local_folder f =
        lookupA st.local_folder f ∧
      lookupA (detect_and_resolve_conflicts_go now entries st).user_folder f = none ∧
      lookupA (detect_and_resolve_conflicts_go now entries st).ledger f =
        lookupA st.ledger f) ∧
    (∀ sfile, lookupA st.user_folder f = some sfile →
      (lfile.content = sfile.content →
        lookupA (detect_and_resolve_conflicts_go now entries st).local_folder f =
          lookupA st.local_folder f ∧
        lookupA (detect_and_resolve_conflicts_go now entries st).user_folder f =
          some sfile ∧
        lookupA (detect_and_resolve_conflicts_go now entries st).ledger f =
          lookupA st.ledger f) ∧
      (lfile.content ≠ sfile.content →
        (sfile.mtime > lfile.mtime →
          lookupA (detect_and_resolve_conflicts_go now entries st).local_folder f =
            some sfile ∧
          lookupA (detect_and_resolve_conflicts_go now entries st).local_folder
            (f ++ ".local_backup") = some lfile ∧
          lookupA (detect_and_resolve_conflicts_go now entries st).user_folder f =
            some sfile ∧
          lookupA (detect_and_resolve_conflicts_go now entries st).ledger f =
            some now) ∧
        (¬ sfile.mtime > lfile.mtime →
          lookupA (detect_and_resolve_conflicts_go now entries st).local_folder f =
            lookupA st.local_folder f ∧
          lookupA (detect_and_resolve_conflicts_go now entries st).user_folder f =
            some lfile ∧
          lookupA (detect_and_resolve_conflicts_go now entries st).user_folder
            (f ++ ".shared_backup") = some sfile ∧
          lookupA (detect_and_resolve_conflicts_go now entries st).ledger f =
            some now))) := by
  induction entries generalizing st with
  | nil => simp at hmem
  | cons e rest ih =>
    obtain ⟨g, gfile⟩ := e
    rw [List.map_cons] at hnd
    have hnd1 := (List.nodup_cons.mp hnd).1
    have hnd2 := (List.nodup_cons.mp hnd).2
    by_cases hgf : g = f
    · subst hgf
      have hfile : gfile = lfile := by
        rcases List.mem_cons.mp hmem with h | h
        · exact (congrArg Prod.snd h).symm
        · exact absurd (List.mem_map.mpr ⟨(g, lfile), h, rfl⟩) hnd1
      subst hfile
      have hfr : ∀ e ∈ rest, is_letter_file e.1 = true →
          g ≠ e.1 ∧ g ≠ e.1 ++ ".local_backup" := by
        intro e he hel
        exact ⟨fun heq => hnd1 (List.mem_map.mpr ⟨e, he, heq.symm⟩),
          letter_ne_local_backup hletter e.1⟩
      have hfrs : ∀ e ∈ rest, is_letter_file e.1 = true →
          g ≠ e.1 ∧ g ≠ e.1 ++ ".shared_backup" := by
        intro e he hel
        exact ⟨fun heq => hnd1 (List.mem_map.mpr ⟨e, he, heq.symm⟩),
          letter_ne_shared_backup hletter e.1⟩
      have hfrl : ∀ e ∈ rest, is_letter_file e.1 = true → g ≠ e.1 :=
        fun e he hel => (hfr e he hel).1
      have hfrb : ∀ e ∈ rest, is_letter_file e.1 = true →
          g ++ ".local_backup" ≠ e.1 ∧
            g ++ ".local_backup" ≠ e.1 ++ ".local_backup" := by
        intro e he hel
        refine ⟨fun heq => letter_ne_local_backup hel g heq.symm, fun heq => ?_⟩
        exact (hfrl e he hel) (append_suffix_inj _ heq)
      have hfrbs : ∀ e ∈ rest, is_letter_file e.1 = true →
          g ++ ".shared_backup" ≠ e.1 ∧
            g ++ ".shared_backup" ≠ e.1 ++ ".shared_backup" := by
        intro e he hel
        refine ⟨fun heq => letter_ne_shared_backup hel g heq.symm, fun heq => ?_⟩
        exact (hfrl e he hel) (append_suffix_inj _ heq)
      rw [detect_and_resolve_conflicts_go, if_pos hletter]
      constructor
      · intro hU
        rw [rce_none now g gfile st hU]
        exact ⟨p3_frame_local now rest st g hfr, hU ▸ p3_frame_uf now rest st g hfrs,
          p3_frame_ledger now rest st g hfrl⟩
      · intro sfile hU
        constructor
        · intro hceq
          have hstep : resolve_conflict_entry now g gfile st = st := by
            rw [rce_some now g gfile sfile st hU,
              if_neg (fun hne => (get_file_hash_ne_iff ..).mp hne hceq)]
          rw [hstep]
          exact ⟨p3_frame_local now rest st g hfr,
            hU ▸ p3_frame_uf now rest st g hfrs,
            p3_frame_ledger now rest st g hfrl⟩
        · intro hcne
          have hhne : get_file_hash (some gfile) ≠ get_file_hash (some sfile) :=
            (get_file_hash_ne_iff ..).mpr hcne
          constructor
          · intro hm
            have hstep : resolve_conflict_entry now g gfile st =
                { st with
                  local_folder :=
                    updateA (updateA st.local_folder (g ++ ".local_backup") gfile)
                      g sfile,
                  ledger := updateA st.ledger g now,
                  count := st.count + 1 } := by
              rw [rce_some now g gfile sfile st hU, if_pos hhne, if_pos hm]
            rw [hstep]
            refine ⟨?_, ?_, ?_, ?_⟩
            · rw [p3_frame_local now rest _ g hfr]
              simp only
              rw [lookupA_updateA_self]
            · rw [p3_frame_local now rest _ _ hfrb]
              simp only
              rw [lookupA_updateA_ne _ _ _ _ (letter_ne_local_backup hletter g).symm,
                lookupA_updateA_self]
            · rw [p3_frame_uf now rest _ g hfrs]
              exact hU
            · rw [p3_frame_ledger now rest _ g hfrl]
              simp only
              rw [lookupA_updateA_self]
          · intro hm
            have hstep : resolve_conflict_entry now g gfile st =
                { st with
                  user_folder :=
                    updateA (updateA st.user_folder (g ++ ".shared_backup") sfile)
                      g gfile,
                  ledger := updateA st.ledger g now,
                  count := st.count + 1 } := by
              rw [rce_some now g gfile sfile st hU, if_pos hhne, if_neg hm]
            rw [hstep]
            refine ⟨?_, ?_, ?_, ?_⟩
            · exact p3_frame_local now rest _ g hfr
            · rw [p3_frame_uf now rest _ g hfrs]
              simp only
              rw [lookupA_updateA_self]
            · rw [p3_frame_uf now rest _ _ hfrbs]
              simp only
              rw [lookupA_updateA_ne _ _ _ _ (letter_ne_shared_backup hletter g).symm,
                lookupA_updateA_self]
            · rw [p3_frame_ledger now rest _ g hfrl]
              simp only
              rw [lookupA_updateA_self]
    · have hmem' : (f, lfile) ∈ rest := by
        rcases List.mem_cons.mp hmem with h | h
        · exact absurd (congrArg Prod.fst h).symm hgf
        · exact h
      by_cases hg : is_letter_file g
      · rw [detect_and_resolve_conflicts_go, if_pos hg]
        have hl1 : lookupA (resolve_conflict_entry now g gfile st).local_folder f =
            lookupA st.local_folder f :=
          rce_frame_local _ _ _ _ _ (fun hh => hgf hh.symm)
            (fun hh => letter_ne_local_backup hletter g hh)
        have hu1 : lookupA (resolve_conflict_entry now g gfile st).user_folder f =
            lookupA st.user_folder f :=
          rce_frame_uf _ _ _ _ _ (fun hh => hgf hh.symm)
            (fun hh => letter_ne_shared_backup hletter g hh)
        have hle : lookupA (resolve_conflict_entry now g gfile st).ledger f =
            lookupA st.ledger f :=
          rce_frame_ledger _ _ _ _ _ (fun hh => hgf hh.symm)
        have := ih (resolve_conflict_entry now g gfile st) hnd2 hmem'
        rw [hl1, hu1, hle] at this
        exact this
      · rw [detect_and_resolve_conflicts_go, if_neg hg]
        exact ih st hnd2 hmem'

theorem p3_zero (now : Nat) (entries : List (String × FileEntry)) (st : P3State)
    (h : ∀ e ∈ entries, is_letter_file e.1 = true →
      ∀ sf, lookupA st.user_folder e.1 = some sf → e.2.content = sf.content) :
    detect_and_resolve_conflicts_go now entries st = st := by
  induction entries with
  | nil => rfl
  | cons e rest ih =>
    obtain ⟨g, gfile⟩ := e
    by_cases hg : is_letter_file g
    · rw [detect_and_resolve_conflicts_go, if_pos hg]
      have hstep : resolve_conflict_entry now g gfile st = st := by
        cases hU : lookupA st.user_folder g with
        | none => exact rce_none now g gfile st hU
        | some sfile =>
          rw [rce_some now g gfile sfile st hU,
            if_neg (fun hne => (get_file_hash_ne_iff ..).mp hne
              (h (g, gfile) (List.mem_cons_self ..) hg sfile hU))]
      rw [hstep]
      exact ih (fun e he => h e (List.mem_cons_of_mem _ he))
    · rw [detect_and_resolve_conflicts_go, if_neg hg]
      exact ih (fun e he => h e (List.mem_cons_of_mem _ he))

theorem rce_evol (now : Nat) (f : String) (lfile : FileEntry) (st : P3State) :
    LedgerEvol now st.ledger (resolve_conflict_entry now f lfile st).ledger := by
  cases hU : lookupA st.user_folder f with
  | none =>
    rw [rce_none now f lfile st hU]
    exact ledgerEvol_refl now st.ledger
  | some sfile =>
    rw [rce_some now f lfile sfile st hU]
    by_cases hd : get_file_hash (some lfile) ≠ get_file_hash (some sfile)
    · rw [if_pos hd]
      by_cases hm : sfile.mtime > lfile.mtime
      · rw [if_pos hm]
        exact ledgerEvol_update st.ledger f
      · rw [if_neg hm]
        exact ledgerEvol_update st.ledger f
    · rw [if_neg hd]
      exact ledgerEvol_refl now st.ledger

theorem p3_evol (now : Nat) (entries : List (String × FileEntry)) (st : P3State) :
    LedgerEvol now st.ledger (detect_and_resolve_conflicts_go now entries st).ledger := by
  induction entries generalizing st with
  | nil => exact ledgerEvol_refl now st.ledger
  | cons e rest ih =>
    obtain ⟨g, gfile⟩ := e
    by_cases hg : is_letter_file g
    · rw [detect_and_resolve_conflicts_go, if_pos hg]
      exact ledgerEvol_trans (rce_evol now g gfile st) (ih _)
    · rw [detect_and_resolve_conflicts_go, if_neg hg]
      exact ih _

theorem rce_mono_local (now : Nat) (f : String) (lfile : FileEntry) (st : P3State)
    (name : String) (v : FileEntry) (h : lookupA st.local_folder name = some v) :
    ∃ v', lookupA (resolve_conflict_entry now f lfile st).local_folder name = some v' := by
  cases hU : lookupA st.user_folder f with
  | none =>
    rw [rce_none now f lfile st hU]
    exact ⟨v, h⟩
  | some sfile =>
    rw [rce_some now f lfile sfile st hU]
    by_cases hd : get_file_hash (some lfile) ≠ get_file_hash (some sfile)
    · rw [if_pos hd]
      by_cases hm : sfile.mtime > lfile.mtime
      · rw [if_pos hm]
        simp only
        rcases updateA_mono (f ++ ".local_backup") lfile h with ⟨w, hw⟩
        exact updateA_mono f sfile hw
      · rw [if_neg hm]
        exact ⟨v, h⟩
    · rw [if_neg hd]
      exact ⟨v, h⟩

theorem p3_mono_local (now : Nat) (entries : List (String × FileEntry)) (st : P3State)
    (name : String) (v : FileEntry) (h : lookupA st.local_folder name = some v) :
    ∃ v', lookupA (detect_and_resolve_conflicts_go now entries st).local_folder name =
      some v' := by
  induction entries generalizing st v with
  | nil => exact ⟨v, h⟩
  | cons e rest ih =>
    obtain ⟨g, gfile⟩ := e
    by_cases hg : is_letter_file g
    · rw [detect_and_resolve_conflicts_go, if_pos hg]
      rcases rce_mono_local now g gfile st name v h with ⟨w, hw⟩
      exact ih _ _ hw
    · rw [detect_and_resolve_conflicts_go, if_neg hg]
      exact ih _ _ h

/-! ### Phase 2 (`_sync_shared_to_local`) characterization -/

theorem own_some (now : Nat) (filename : String) (sharedFile localFile : FileEntry)
    (st : P2State) (hL : lookupA st.local_folder filename = some localFile) :
    sync_shared_to_local_own now filename sharedFile st =
      if get_file_hash (some sharedFile) ≠ get_file_hash (some localFile) ∧
          sharedFile.mtime > localFile.mtime then
        { st with
          local_folder :=
            updateA (updateA st.local_folder (filename ++ ".local_backup") localFile)
              filename sharedFile,
          ledger := updateA st.ledger filename now,
          count := st.count + 1 }
      else st := by
  rw [sync_shared_to_local_own, hL]

theorem own_none (now : Nat) (filename : String) (sharedFile : FileEntry)
    (st : P2State) (hL : lookupA st.local_folder filename = none) :
    sync_shared_to_local_own now filename sharedFile st =
      { st with
        local_folder := updateA st.local_folder filename sharedFile,
        ledger := updateA st.ledger filename now,
        count := st.count + 1 } := by
  rw [sync_shared_to_local_own, hL]

theorem own_frame_local (now : Nat) (filename : String) (sharedFile : FileEntry)
    (st : P2State) (name : String) (h1 : name ≠ filename)
    (h2 : name ≠ filename ++ ".local_backup") :
    lookupA (sync_shared_to_local_own now filename sharedFile st).local_folder name =
      lookupA st.local_folder name := by
  cases hL : lookupA st.local_folder filename with
  | none =>
    rw [own_none now filename sharedFile st hL]
    simp only
    rw [lookupA_updateA_ne _ _ _ _ h1]
  | some localFile =>
    rw [own_some now filename sharedFile localFile st hL]
    by_cases hc : get_file_hash (some sharedFile) ≠ get_file_hash (some localFile) ∧
        sharedFile.mtime > localFile.mtime
    · rw [if_pos hc]
      simp only
      rw [lookupA_updateA_ne _ _ _ _ h1, lookupA_updateA_ne _ _ _ _ h2]
    · rw [if_neg hc]

theorem own_frame_ledger (now : Nat) (filename : String) (sharedFile : FileEntry)
    (st : P2State) (name : String) (h1 : name ≠ filename) :
    lookupA (sync_shared_to_local_own now filename sharedFile st).ledger name =
      lookupA st.ledger name := by
  cases hL : lookupA st.local_folder filename with
  | none =>
    rw [own_none now filename sharedFile st hL]
    simp only
    rw [lookupA_updateA_ne _ _ _ _ h1]
  | some localFile =>
    rw [own_some now filename sharedFile localFile st hL]
    by_cases hc : get_file_hash (some sharedFile) ≠ get_file_hash (some localFile) ∧
        sharedFile.mtime > localFile.mtime
    · rw [if_pos hc]
      simp only
      rw [lookupA_updateA_ne _ _ _ _ h1]
    · rw [if_neg hc]

theorem own_comm (now : Nat) (filename : String) (sharedFile : FileEntry) (st : P2State) :
    (sync_shared_to_local_own now filename sharedFile st).community = st.community := by
  cases hL : lookupA st.local_folder filename with
  | none => rw [own_none now filename sharedFile st hL]
  | some localFile =>
    rw [own_some now filename sharedFile localFile st hL]
    by_cases hc : get_file_hash (some sharedFile) ≠ get_file_hash (some localFile) ∧
        sharedFile.mtime > localFile.mtime
    · rw [if_pos hc]
    · rw [if_neg hc]

theorem own_evol (now : Nat) (filename : String) (sharedFile : FileEntry) (st : P2State) :
    LedgerEvol now st.ledger (sync_shared_to_local_own now filename sharedFile st).ledger := by
  cases hL : lookupA st.local_folder filename with
  | none =>
    rw [own_none now filename sharedFile st hL]
    exact ledgerEvol_update st.ledger filename
  | some localFile =>
    rw [own_some now filename sharedFile localFile st hL]
    by_cases hc : get_file_hash (some sharedFile) ≠ get_file_hash (some localFile) ∧
        sharedFile.mtime > localFile.mtime
    · rw [if_pos hc]
      exact ledgerEvol_update st.ledger filename
    · rw [if_neg hc]
      exact ledgerEvol_refl now st.ledger

theorem own_mono_local (now : Nat) (filename : String) (sharedFile : FileEntry)
    (st : P2State) (name : String) (v : FileEntry)
    (h : lookupA st.local_folder name = some v) :
    ∃ v', lookupA (sync_shared_to_local_own now filename sharedFile st).local_folder name =
      some v' := by
  cases hL : lookupA st.local_folder filename with
  | none =>
    rw [own_none now filename sharedFile st hL]
    exact updateA_mono _ _ h
  | some localFile =>
    rw [own_some now filename sharedFile localFile st hL]
    by_cases hc : get_file_hash (some sharedFile) ≠ get_file_hash (some localFile) ∧
        sharedFile.mtime > localFile.mtime
    · rw [if_pos hc]
      simp only
      rcases updateA_mono (filename ++ ".local_backup") localFile h with ⟨w, hw⟩
      exact updateA_mono filename sharedFile hw
    · rw [if_neg hc]
      exact ⟨v, h⟩

theorem foreign_local (now : Nat) (username filename : String) (sharedFile : FileEntry)
    (st : P2State) :
    (sync_shared_to_local_foreign now username filename sharedFile st).local_folder =
      st.local_folder := by
  rw [sync_shared_to_local_foreign]
  by_cases hc : needs_sync st.ledger filename sharedFile
      (lookupA ((lookupA st.community username).getD []) filename) = true
  · rw [if_pos hc]
  · rw [if_neg hc]

theorem foreign_comm_other (now : Nat) (username filename : String)
    (sharedFile : FileEntry) (st : P2State) (u : String) (hu : u ≠ username) :
    lookupA (sync_shared_to_local_foreign now username filename sharedFile st).community u =
      lookupA st.community u := by
  rw [sync_shared_to_local_foreign]
  by_cases hc : needs_sync st.ledger filename sharedFile
      (lookupA ((lookupA st.community username).getD []) filename) = true
  · rw [if_pos hc]
    simp only
    rw [lookupA_updateA_ne _ _ _ _ hu]
  · rw [if_neg hc]

theorem foreign_comm_frame (now : Nat) (username filename : String)
    (sharedFile : FileEntry) (st : P2State) (name : String) (hn : name ≠ filename) :
    lookupA ((lookupA
        (sync_shared_to_local_foreign now username filename sharedFile st).community
        username).getD []) name =
      lookupA ((lookupA st.community username).getD []) name := by
  rw [sync_shared_to_local_foreign]
  by_cases hc : needs_sync st.ledger filename sharedFile
      (lookupA ((lookupA st.community username).getD []) filename) = true
  · rw [if_pos hc]
    simp only
    rw [lookupA_updateA_self]
    simp only [Option.getD_some]
    rw [lookupA_updateA_ne _ _ _ _ hn]
  · rw [if_neg hc]

theorem foreign_ledger_frame (now : Nat) (username filename : String)
    (sharedFile : FileEntry) (st : P2State) (name : String)
    (hn : name ≠ username ++ "/" ++ filename) :
    lookupA (sync_shared_to_local_foreign now username filename sharedFile st).ledger name =
      lookupA st.ledger name := by
  rw [sync_shared_to_local_foreign]
  by_cases hc : needs_sync st.ledger filename sharedFile
      (lookupA ((lookupA st.community username).getD []) filename) = true
  · rw [if_pos hc]
    simp only
    rw [lookupA_updateA_ne _ _ _ _ hn]
  · rw [if_neg hc]

theorem foreign_evol (now : Nat) (username filename : String) (sharedFile : FileEntry)
    (st : P2State) :
    LedgerEvol now st.ledger
      (sync_shared_to_local_foreign now username filename sharedFile st).ledger := by
  rw [sync_shared_to_local_foreign]
  by_cases hc : needs_sync st.ledger filename sharedFile
      (lookupA ((lookupA st.community username).getD []) filename) = true
  · rw [if_pos hc]
    exact ledgerEvol_update st.ledger _
  · rw [if_neg hc]
    exact ledgerEvol_refl now st.ledger

theorem pf_local_frame (now : Nat) (selfUser username : String)
    (entries : List (String × FileEntry)) (st : P2State) (name : String)
    (h : username = selfUser → ∀ e ∈ entries, is_letter_file e.1 = true →
      name ≠ e.1 ∧ name ≠ e.1 ++ ".local_backup") :
    lookupA (sync_shared_to_local_folder now selfUser username entries st).local_folder
        name = lookupA st.local_folder name := by
  induction entries generalizing st with
  | nil => rfl
  | cons e rest ih =>
    obtain ⟨g, gf⟩ := e
    by_cases hg : is_letter_file g
    · rw [sync_shared_to_local_folder, if_pos hg]
      by_cases husr : username = selfUser
      · rw [if_pos husr]
        have hh := h husr (g, gf) (List.mem_cons_self ..) hg
        rw [ih _ (fun hu e he hel => h hu e (List.mem_cons_of_mem _ he) hel),
          own_frame_local _ _ _ _ _ hh.1 hh.2]
      · rw [if_neg husr]
        rw [ih _ (fun hu e he hel => h hu e (List.mem_cons_of_mem _ he) hel),
          foreign_local]
    · rw [sync_shared_to_local_folder, if_neg hg]
      exact ih _ (fun hu e he hel => h hu e (List.mem_cons_of_mem _ he) hel)

theorem pf_comm_other (now : Nat) (selfUser username : String)
    (entries : List (String × FileEntry)) (st : P2State) (u : String)
    (hu : u ≠ username) :
    lookupA (sync_shared_to_local_folder now selfUser username entries st).community u =
      lookupA st.community u := by
  induction entries generalizing st with
  | nil => rfl
  | cons e rest ih =>
    obtain ⟨g, gf⟩ := e
    by_cases hg : is_letter_file g
    · rw [sync_shared_to_local_folder, if_pos hg]
      by_cases husr : username = selfUser
      · rw [if_pos husr, ih _, own_comm]
      · rw [if_neg husr, ih _, foreign_comm_other _ _ _ _ _ _ hu]
    · rw [sync_shared_to_local_folder, if_neg hg]
      exact ih _

theorem pf_comm_frame (now : Nat) (selfUser username : String)
    (entries : List (String × FileEntry)) (st : P2State) (name : String)
    (h : ∀ e ∈ entries, is_letter_file e.1 = true → name ≠ e.1) :
    lookupA ((lookupA
        (sync_shared_to_local_folder now selfUser username entries st).community
        username).getD []) name =
      lookupA ((lookupA st.community username).getD []) name := by
  induction entries generalizing st with
  | nil => rfl
  | cons e rest ih =>
    obtain ⟨g, gf⟩ := e
    by_cases hg : is_letter_file g
    · rw [sync_shared_to_local_folder, if_pos hg]
      by_cases husr : username = selfUser
      · rw [if_pos husr, ih _ (fun e he hel => h e (List.mem_cons_of_mem _ he) hel),
          own_comm]
      · rw [if_neg husr, ih _ (fun e he hel => h e (List.mem_cons_of_mem _ he) hel),
          foreign_comm_frame _ _ _ _ _ _ (h (g, gf) (List.mem_cons_self ..) hg)]
    · rw [sync_shared_to_local_folder, if_neg hg]
      exact ih _ (fun e he hel => h e (List.mem_cons_of_mem _ he) hel)

theorem pf_ledger_frame (now : Nat) (selfUser username : String)
    (entries : List (String × FileEntry)) (st : P2State) (name : String)
    (hslash : username ≠ selfUser → '/' ∉ name.data)
    (h : username = selfUser → ∀ e ∈ entries, is_letter_file e.1 = true → name ≠ e.1) :
    lookupA (sync_shared_to_local_folder now selfUser username entries st).ledger name =
      lookupA st.ledger name := by
  induction entries generalizing st with
  | nil => rfl
  | cons e rest ih =>
    obtain ⟨g, gf⟩ := e
    by_cases hg : is_letter_file g
    · rw [sync_shared_to_local_folder, if_pos hg]
      by_cases husr : username = selfUser
      · rw [if_pos husr,
          ih _ (fun hu e he hel => h hu e (List.mem_cons_of_mem _ he) hel),
          own_frame_ledger _ _ _ _ _ (h husr (g, gf) (List.mem_cons_self ..) hg)]
      · rw [if_neg husr,
          ih _ (fun hu e he hel => h hu e (List.mem_cons_of_mem _ he) hel),
          foreign_ledger_frame _ _ _ _ _ _
            (slashfree_ne_comm_key (hslash husr) username g)]
    · rw [sync_shared_to_local_folder, if_neg hg]
      exact ih _ (fun hu e he hel => h hu e (List.mem_cons_of_mem _ he) hel)

theorem pf_evol (now : Nat) (selfUser username : String)
    (entries : List (String × FileEntry)) (st : P2State) :
    LedgerEvol now st.ledger
      (sync_shared_to_local_folder now selfUser username entries st).ledger := by
  induction entries generalizing st with
  | nil => exact ledgerEvol_refl now st.ledger
  | cons e rest ih =>
    obtain ⟨g, gf⟩ := e
    by_cases hg : is_letter_file g
    · rw [sync_shared_to_local_folder, if_pos hg]
      by_cases husr : username = selfUser
      · rw [if_pos husr]
        exact ledgerEvol_trans (own_evol now g gf st) (ih _)
      · rw [if_neg husr]
        exact ledgerEvol_trans (foreign_evol now username g gf st) (ih _)
    · rw [sync_shared_to_local_folder, if_neg hg]
      exact ih _

theorem pf_local_mono (now : Nat) (selfUser username : String)
    (entries : List (String × FileEntry)) (st : P2State) (name : String)
    (v : FileEntry) (h : lookupA st.local_folder name = some v) :
    ∃ v', lookupA
      (sync_shared_to_local_folder now selfUser username entries st).local_folder name =
        some v' := by
  induction entries generalizing st v with
  | nil => exact ⟨v, h⟩
  | cons e rest ih =>
    obtain ⟨g, gf⟩ := e
    by_cases hg : is_letter_file g
    · rw [sync_shared_to_local_folder, if_pos hg]
      by_cases husr : username = selfUser
      · rw [if_pos husr]
        rcases own_mono_local now g gf st name v h with ⟨w, hw⟩
        exact ih _ _ hw
      · rw [if_neg husr]
        exact ih _ _ (by rw [foreign_local]; exact h)
    · rw [sync_shared_to_local_folder, if_neg hg]
      exact ih _ _ h

theorem pf_own_point (now : Nat) (selfUser : String)
    (entries : List (String × FileEntry)) (st : P2State) (g : String) (gf : FileEntry)
    (hnd : (entries.map Prod.fst).Nodup) (hmem : (g, gf) ∈ entries)
    (hletter : is_letter_file g = true) :
    (lookupA st.local_folder g = none →
      lookupA (sync_shared_to_local_folder now selfUser selfUser entries st).local_folder
          g = some gf ∧
      lookupA (sync_shared_to_local_folder now selfUser selfUser entries st).ledger g =
        some now) ∧
    (∀ lf, lookupA st.local_folder g = some lf →
      (get_file_hash (some gf) ≠ get_file_hash (some lf) ∧ gf.mtime > lf.mtime →
        lookupA (sync_shared_to_local_folder now selfUser selfUser entries st).local_folder
            g = some gf ∧
        lookupA (sync_shared_to_local_folder now selfUser selfUser entries st).local_folder
            (g ++ ".local_backup") = some lf ∧
        lookupA (sync_shared_to_local_folder now selfUser selfUser entries st).ledger g =
          some now) ∧
      (¬(get_file_hash (some gf) ≠ get_file_hash (some lf) ∧ gf.mtime > lf.mtime) →
        lookupA (sync_shared_to_local_folder now selfUser selfUser entries st).local_folder
            g = some lf ∧
        lookupA (sync_shared_to_local_folder now selfUser selfUser entries st).ledger g =
          lookupA st.ledger g)) := by
  induction entries generalizing st with
  | nil => simp at hmem
  | cons e rest ih =>
    obtain ⟨h, hf⟩ := e
    rw [List.map_cons] at hnd
    have hnd1 := (List.nodup_cons.mp hnd).1
    have hnd2 := (List.nodup_cons.mp hnd).2
    by_cases hhg : h = g
    · subst hhg
      have hfile : hf = gf := by
        rcases List.mem_cons.mp hmem with h' | h'
        · exact (congrArg Prod.snd h').symm
        · exact absurd (List.mem_map.mpr ⟨(h, gf), h', rfl⟩) hnd1
      subst hfile
      have hfr : ∀ e ∈ rest, is_letter_file e.1 = true →
          h ≠ e.1 ∧ h ≠ e.1 ++ ".local_backup" := by
        intro e he hel
        exact ⟨fun heq => hnd1 (List.mem_map.mpr ⟨e, he, heq.symm⟩),
          letter_ne_local_backup hletter e.1⟩
      have hfrb : ∀ e ∈ rest, is_letter_file e.1 = true →
          h ++ ".local_backup" ≠ e.1 ∧
            h ++ ".local_backup" ≠ e.1 ++ ".local_backup" := by
        intro e he hel
        refine ⟨fun heq => letter_ne_local_backup hel h heq.symm, fun heq => ?_⟩
        exact (hfr e he hel).1 (append_suffix_inj _ heq)
      have hfrl : ∀ e ∈ rest, is_letter_file e.1 = true → h ≠ e.1 :=
        fun e he hel => (hfr e he hel).1
      rw [sync_shared_to_local_folder, if_pos hletter, if_pos rfl]
      constructor
      · intro hL
        rw [own_none now h hf st hL]
        rw [pf_local_frame _ _ _ _ _ _ (fun _ => hfr),
          pf_ledger_frame _ _ _ _ _ _ (fun hu => absurd rfl hu) (fun _ => hfrl)]
        simp only
        rw [lookupA_updateA_self, lookupA_updateA_self]
        exact ⟨rfl, rfl⟩
      · intro lf hL
        rw [own_some now h hf lf st hL]
        constructor
        · intro hc
          rw [if_pos hc]
          rw [pf_local_frame _ _ _ _ _ _ (fun _ => hfr),
            pf_local_frame _ _ _ _ _ _ (fun _ => hfrb),
            pf_ledger_frame _ _ _ _ _ _ (fun hu => absurd rfl hu) (fun _ => hfrl)]
          simp only
          rw [lookupA_updateA_self,
            lookupA_updateA_ne _ _ _ _ (letter_ne_local_backup hletter h).symm,
            lookupA_updateA_self, lookupA_updateA_self]
          exact ⟨rfl, rfl, rfl⟩
        · intro hc
          rw [if_neg hc]
          rw [pf_local_frame _ _ _ _ _ _ (fun _ => hfr),
            pf_ledger_frame _ _ _ _ _ _ (fun hu => absurd rfl hu) (fun _ => hfrl)]
          exact ⟨hL, rfl⟩
    · have hmem' : (g, gf) ∈ rest := by
        rcases List.mem_cons.mp hmem with h' | h'
        · exact absurd (congrArg Prod.fst h').symm hhg
        · exact h'
      by_cases hhl : is_letter_file h
      · rw [sync_shared_to_local_folder, if_pos hhl, if_pos rfl]
        have hl1 : lookupA (sync_shared_to_local_own now h hf st).local_folder g =
            lookupA st.local_folder g :=
          own_frame_local _ _ _ _ _ (fun hh => hhg hh.symm)
            (fun hh => letter_ne_local_backup hletter h hh)
        have hle : lookupA (sync_shared_to_local_own now h hf st).ledger g =
            lookupA st.ledger g :=
          own_frame_ledger _ _ _ _ _ (fun hh => hhg hh.symm)
        have := ih (sync_shared_to_local_own now h hf st) hnd2 hmem'
        rw [hl1, hle] at this
        exact this
      · rw [sync_shared_to_local_folder, if_neg hhl]
        exact ih st hnd2 hmem'

theorem pf_foreign_point (now : Nat) (selfUser username : String)
    (entries : List (String × FileEntry)) (st : P2State) (g : String) (gf : FileEntry)
    (husr : username ≠ selfUser)
    (hnd : (entries.map Prod.fst).Nodup) (hmem : (g, gf) ∈ entries)
    (hletter : is_letter_file g = true) :
    ∃ Lmid, LedgerEvol now st.ledger Lmid ∧
      LedgerEvol now Lmid
        (sync_shared_to_local_folder now selfUser username entries st).ledger ∧
      (needs_sync Lmid g gf
          (lookupA ((lookupA st.community username).getD []) g) = true →
        lookupA ((lookupA
          (sync_shared_to_local_folder now selfUser username entries st).community
          username).getD []) g = some gf) ∧
      (needs_sync Lmid g gf
          (lookupA ((lookupA st.community username).getD []) g) = false →
        lookupA ((lookupA
          (sync_shared_to_local_folder now selfUser username entries st).community
          username).getD []) g =
          lookupA ((lookupA st.community username).getD []) g) := by
  induction entries generalizing st with
  | nil => simp at hmem
  | cons e rest ih =>
    obtain ⟨h, hf⟩ := e
    rw [List.map_cons] at hnd
    have hnd1 := (List.nodup_cons.mp hnd).1
    have hnd2 := (List.nodup_cons.mp hnd).2
    by_cases hhg : h = g
    · subst hhg
      have hfile : hf = gf := by
        rcases List.mem_cons.mp hmem with h' | h'
        · exact (congrArg Prod.snd h').symm
        · exact absurd (List.mem_map.mpr ⟨(h, gf), h', rfl⟩) hnd1
      subst hfile
      have hfrl : ∀ e ∈ rest, is_letter_file e.1 = true → h ≠ e.1 :=
        fun e he hel heq => hnd1 (List.mem_map.mpr ⟨e, he, heq.symm⟩)
      rw [sync_shared_to_local_folder, if_pos hletter, if_neg husr]
      refine ⟨st.ledger, ledgerEvol_refl now st.ledger, ?_, ?_, ?_⟩
      · exact ledgerEvol_trans (foreign_evol now username h hf st) (pf_evol now selfUser username rest _)
      · intro hns
        rw [pf_comm_frame _ _ _ _ _ _ hfrl]
        rw [sync_shared_to_local_foreign, if_pos hns]
        simp only
        rw [lookupA_updateA_self]
        simp only [Option.getD_some]
        rw [lookupA_updateA_self]
      · intro hns
        rw [pf_comm_frame _ _ _ _ _ _ hfrl]
        rw [sync_shared_to_local_foreign,
          if_neg (by rw [hns]; exact Bool.false_ne_true)]
    · have hmem' : (g, gf) ∈ rest := by
        rcases List.mem_cons.mp hmem with h' | h'
        · exact absurd (congrArg Prod.fst h').symm hhg
        · exact h'
      by_cases hhl : is_letter_file h
      · rw [sync_shared_to_local_folder, if_pos hhl, if_neg husr]
        have hcf : lookupA ((lookupA
            (sync_shared_to_local_foreign now username h hf st).community
            username).getD []) g =
            lookupA ((lookupA st.community username).getD []) g :=
          foreign_comm_frame _ _ _ _ _ _ (fun hh => hhg hh.symm)
        rcases ih (sync_shared_to_local_foreign now username h hf st) hnd2 hmem'
          with ⟨Lmid, he1, he2, hfire, hskip⟩
        rw [hcf] at hfire hskip
        exact ⟨Lmid, ledgerEvol_trans (foreign_evol now username h hf st) he1,
          he2, hfire, hskip⟩
      · rw [sync_shared_to_local_folder, if_neg hhl]
        exact ih st hnd2 hmem'

theorem pf_zero (now : Nat) (selfUser username : String)
    (entries : List (String × FileEntry)) (st : P2State)
    (hown : username = selfUser → ∀ e ∈ entries, is_letter_file e.1 = true →
      ∃ lf, lookupA st.local_folder e.1 = some lf ∧
        ¬(get_file_hash (some e.2) ≠ get_file_hash (some lf) ∧ e.2.mtime > lf.mtime))
    (hfor : username ≠ selfUser → ∀ e ∈ entries, is_letter_file e.1 = true →
      needs_sync st.ledger e.1 e.2
        (lookupA ((lookupA st.community username).getD []) e.1) = false) :
    sync_shared_to_local_folder now selfUser username entries st = st := by
  induction entries with
  | nil => rfl
  | cons e rest ih =>
    obtain ⟨g, gf⟩ := e
    by_cases hg : is_letter_file g
    · rw [sync_shared_to_local_folder, if_pos hg]
      have hstep : (if username = selfUser then sync_shared_to_local_own now g gf st
          else sync_shared_to_local_foreign now username g gf st) = st := by
        by_cases husr : username = selfUser
        · rw [if_pos husr]
          rcases hown husr (g, gf) (List.mem_cons_self ..) hg with ⟨lf, hL, hc⟩
          rw [own_some now g gf lf st hL, if_neg hc]
        · rw [if_neg husr]
          rw [sync_shared_to_local_foreign,
            if_neg (by rw [hfor husr (g, gf) (List.mem_cons_self ..) hg]; exact Bool.false_ne_true)]
      rw [hstep]
      exact ih (fun hu e he hel => hown hu e (List.mem_cons_of_mem _ he) hel)
        (fun hu e he hel => hfor hu e (List.mem_cons_of_mem _ he) hel)
    · rw [sync_shared_to_local_folder, if_neg hg]
      exact ih (fun hu e he hel => hown hu e (List.mem_cons_of_mem _ he) hel)
        (fun hu e he hel => hfor hu e (List.mem_cons_of_mem _ he) hel)

theorem pf_comm_own_id (now : Nat) (selfUser : String)
    (entries : List (String × FileEntry)) (st : P2State) :
    (sync_shared_to_local_folder now selfUser selfUser entries st).community =
      st.community := by
  induction entries generalizing st with
  | nil => rfl
  | cons e rest ih =>
    obtain ⟨g, gf⟩ := e
    by_cases hg : is_letter_file g
    · rw [sync_shared_to_local_folder, if_pos hg, if_pos rfl, ih _, own_comm]
    · rw [sync_shared_to_local_folder, if_neg hg]
      exact ih _

theorem pu_local_frame (now : Nat) (selfUser : String)
    (store : List (String × Folder)) (st : P2State) (name : String)
    (h : ∀ p ∈ store, p.1 = selfUser → ∀ e ∈ p.2, is_letter_file e.1 = true →
      name ≠ e.1 ∧ name ≠ e.1 ++ ".local_backup") :
    lookupA (sync_shared_to_local_users now selfUser store st).local_folder name =
      lookupA st.local_folder name := by
  induction store generalizing st with
  | nil => rfl
  | cons p rest ih =>
    obtain ⟨u, fold⟩ := p
    rw [sync_shared_to_local_users,
      ih _ (fun p hp => h p (List.mem_cons_of_mem _ hp)),
      pf_local_frame _ _ _ _ _ _ (fun hu => h (u, fold) (List.mem_cons_self ..) hu)]

theorem pu_comm_user (now : Nat) (selfUser : String)
    (store : List (String × Folder)) (st : P2State) (u' name : String)
    (h : ∀ p ∈ store, p.1 ≠ selfUser → p.1 = u' →
      ∀ e ∈ p.2, is_letter_file e.1 = true → name ≠ e.1) :
    lookupA ((lookupA
        (sync_shared_to_local_users now selfUser store st).community u').getD []) name =
      lookupA ((lookupA st.community u').getD []) name := by
  induction store generalizing st with
  | nil => rfl
  | cons p rest ih =>
    obtain ⟨u, fold⟩ := p
    rw [sync_shared_to_local_users, ih _ (fun p hp => h p (List.mem_cons_of_mem _ hp))]
    by_cases huu : u = u'
    · subst huu
      by_cases husr : u = selfUser
      · subst husr
        rw [pf_comm_own_id]
      · rw [pf_comm_frame _ _ _ _ _ _
          (h (u, fold) (List.mem_cons_self ..) husr rfl)]
    · rw [pf_comm_other _ _ _ _ _ _ (fun hh => huu hh.symm)]

theorem pu_ledger_frame (now : Nat) (selfUser : String)
    (store : List (String × Folder)) (st : P2State) (name : String)
    (hslash : '/' ∉ name.data)
    (h : ∀ p ∈ store, p.1 = selfUser → ∀ e ∈ p.2, is_letter_file e.1 = true →
      name ≠ e.1) :
    lookupA (sync_shared_to_local_users now selfUser store st).ledger name =
      lookupA st.ledger name := by
  induction store generalizing st with
  | nil => rfl
  | cons p rest ih =>
    obtain ⟨u, fold⟩ := p
    rw [sync_shared_to_local_users,
      ih _ (fun p hp => h p (List.mem_cons_of_mem _ hp)),
      pf_ledger_frame _ _ _ _ _ _ (fun _ => hslash)
        (fun hu => h (u, fold) (List.mem_cons_self ..) hu)]

theorem pu_evol (now : Nat) (selfUser : String) (store : List (String × Folder))
    (st : P2State) :
    LedgerEvol now st.ledger
      (sync_shared_to_local_users now selfUser store st).ledger := by
  induction store generalizing st with
  | nil => exact ledgerEvol_refl now st.ledger
  | cons p rest ih =>
    obtain ⟨u, fold⟩ := p
    rw [sync_shared_to_local_users]
    exact ledgerEvol_trans (pf_evol now selfUser u fold st) (ih _)

theorem pu_local_mono (now : Nat) (selfUser : String)
    (store : List (String × Folder)) (st : P2State) (name : String) (v : FileEntry)
    (h : lookupA st.local_folder name = some v) :
    ∃ v', lookupA
      (sync_shared_to_local_users now selfUser store st).local_folder name = some v' := by
  induction store generalizing st v with
  | nil => exact ⟨v, h⟩
  | cons p rest ih =>
    obtain ⟨u, fold⟩ := p
    rw [sync_shared_to_local_users]
    rcases pf_local_mono now selfUser u fold st name v h with ⟨w, hw⟩
    exact ih _ _ hw

theorem pu_own_point (now : Nat) (selfUser : String)
    (store : List (String × Folder)) (st : P2State) (ownF : Folder)
    (g : String) (gf : FileEntry)
    (hstnd : (store.map Prod.fst).Nodup) (hstore : (selfUser, ownF) ∈ store)
    (hnd : (ownF.map Prod.fst).Nodup) (hmem : (g, gf) ∈ ownF)
    (hletter : is_letter_file g = true) (hslash : '/' ∉ g.data) :
    (lookupA st.local_folder g = none →
      lookupA (sync_shared_to_local_users now selfUser store st).local_folder g =
        some gf ∧
      lookupA (sync_shared_to_local_users now selfUser store st).ledger g = some now) ∧
    (∀ lf, lookupA st.local_folder g = some lf →
      (get_file_hash (some gf) ≠ get_file_hash (some lf) ∧ gf.mtime > lf.mtime →
        lookupA (sync_shared_to_local_users now selfUser store st).local_folder g =
          some gf ∧
        lookupA (sync_shared_to_local_users now selfUser store st).local_folder
          (g ++ ".local_backup") = some lf ∧
        lookupA (sync_shared_to_local_users now selfUser store st).ledger g =
          some now) ∧
      (¬(get_file_hash (some gf) ≠ get_file_hash (some lf) ∧ gf.mtime > lf.mtime) →
        lookupA (sync_shared_to_local_users now selfUser store st).local_folder g =
          some lf ∧
        lookupA (sync_shared_to_local_users now selfUser store st).ledger g =
          lookupA st.ledger g)) := by
  induction store generalizing st with
  | nil => simp at hstore
  | cons p rest ih =>
    obtain ⟨u, fold⟩ := p
    rw [List.map_cons] at hstnd
    have hstnd1 := (List.nodup_cons.mp hstnd).1
    have hstnd2 := (List.nodup_cons.mp hstnd).2
    by_cases husr : u = selfUser
    · subst husr
      have hfold : fold = ownF := by
        rcases List.mem_cons.mp hstore with h' | h'
        · exact (congrArg Prod.snd h').symm
        · exact absurd (List.mem_map.mpr ⟨(u, ownF), h', rfl⟩) hstnd1
      subst hfold
      have hnou : ∀ p ∈ rest, p.1 ≠ u :=
        fun p hp hpu => hstnd1 (List.mem_map.mpr ⟨p, hp, hpu⟩)
      rw [sync_shared_to_local_users]
      have hfr := pu_local_frame now u rest
        (sync_shared_to_local_folder now u u fold st) g
        (fun p hp hpu => absurd hpu (hnou p hp))
      have hfrb := pu_local_frame now u rest
        (sync_shared_to_local_folder now u u fold st) (g ++ ".local_backup")
        (fun p hp hpu => absurd hpu (hnou p hp))
      have hfle := pu_ledger_frame now u rest
        (sync_shared_to_local_folder now u u fold st) g hslash
        (fun p hp hpu => absurd hpu (hnou p hp))
      have hpt := pf_own_point now u fold st g gf hnd hmem hletter
      constructor
      · intro hL
        rcases hpt.1 hL with ⟨h1, h2⟩
        exact ⟨by rw [hfr]; exact h1, by rw [hfle]; exact h2⟩
      · intro lf hL
        refine ⟨fun hc => ?_, fun hc => ?_⟩
        · rcases (hpt.2 lf hL).1 hc with ⟨h1, h2, h3⟩
          exact ⟨by rw [hfr]; exact h1, by rw [hfrb]; exact h2, by rw [hfle]; exact h3⟩
        · rcases (hpt.2 lf hL).2 hc with ⟨h1, h2⟩
          exact ⟨by rw [hfr]; exact h1, by rw [hfle]; exact h2⟩
    · have hstore' : (selfUser, ownF) ∈ rest := by
        rcases List.mem_cons.mp hstore with h' | h'
        · exact absurd (congrArg Prod.fst h').symm husr
        · exact h'
      rw [sync_shared_to_local_users]
      have hfr : lookupA
          (sync_shared_to_local_folder now selfUser u fold st).local_folder g =
          lookupA st.local_folder g :=
        pf_local_frame _ _ _ _ _ _ (fun hu => absurd hu husr)
      have hfle : lookupA
          (sync_shared_to_local_folder now selfUser u fold st).ledger g =
          lookupA st.ledger g :=
        pf_ledger_frame _ _ _ _ _ _ (fun _ => hslash) (fun hu => absurd hu husr)
      have := ih (sync_shared_to_local_folder now selfUser u fold st) hstnd2 hstore'
      rw [hfr, hfle] at this
      exact this

theorem pu_foreign_point (now : Nat) (selfUser : String)
    (store : List (String × Folder)) (st : P2State) (u₀ : String) (fold : Folder)
    (g : String) (gf : FileEntry)
    (hstnd : (store.map Prod.fst).Nodup) (hstore : (u₀, fold) ∈ store)
    (husr : u₀ ≠ selfUser) (hnd : (fold.map Prod.fst).Nodup) (hmem : (g, gf) ∈ fold)
    (hletter : is_letter_file g = true) :
    ∃ Lmid, LedgerEvol now st.ledger Lmid ∧
      LedgerEvol now Lmid
        (sync_shared_to_local_users now selfUser store st).ledger ∧
      (needs_sync Lmid g gf
          (lookupA ((lookupA st.community u₀).getD []) g) = true →
        lookupA ((lookupA
          (sync_shared_to_local_users now selfUser store st).community u₀).getD [])
            g = some gf) ∧
      (needs_sync Lmid g gf
          (lookupA ((lookupA st.community u₀).getD []) g) = false →
        lookupA ((lookupA
          (sync_shared_to_local_users now selfUser store st).community u₀).getD [])
            g = lookupA ((lookupA st.community u₀).getD []) g) := by
  induction store generalizing st with
  | nil => simp at hstore
  | cons p rest ih =>
    obtain ⟨u, fold'⟩ := p
    rw [List.map_cons] at hstnd
    have hstnd1 := (List.nodup_cons.mp hstnd).1
    have hstnd2 := (List.nodup_cons.mp hstnd).2
    by_cases huu : u = u₀
    · subst huu
      have hfold : fold' = fold := by
        rcases List.mem_cons.mp hstore with h' | h'
        · exact (congrArg Prod.snd h').symm
        · exact absurd (List.mem_map.mpr ⟨(u, fold), h', rfl⟩) hstnd1
      subst hfold
      rw [sync_shared_to_local_users]
      rcases pf_foreign_point now selfUser u fold' st g gf husr hnd hmem hletter
        with ⟨Lmid, he1, he2, hfire, hskip⟩
      have hcf := pu_comm_user now selfUser rest
        (sync_shared_to_local_folder now selfUser u fold' st) u g
        (fun p hp hne hpu => absurd (List.mem_map.mpr ⟨p, hp, hpu⟩) hstnd1)
      refine ⟨Lmid, he1, ledgerEvol_trans he2 (pu_evol now selfUser rest _), ?_, ?_⟩
      · intro hns
        rw [hcf]
        exact hfire hns
      · intro hns
        rw [hcf]
        exact hskip hns
    · have hstore' : (u₀, fold) ∈ rest := by
        rcases List.mem_cons.mp hstore with h' | h'
        · exact absurd (congrArg Prod.fst h').symm huu
        · exact h'
      rw [sync_shared_to_local_users]
      have hcf : lookupA ((lookupA
          (sync_shared_to_local_folder now selfUser u fold' st).community u₀).getD [])
            g = lookupA ((lookupA st.community u₀).getD []) g := by
        by_cases husr' : u = selfUser
        · subst husr'
          rw [pf_comm_own_id]
        · rw [pf_comm_other _ _ _ _ _ _ (fun hh => huu hh.symm)]
      rcases ih (sync_shared_to_local_folder now selfUser u fold' st) hstnd2 hstore'
        with ⟨Lmid, he1, he2, hfire, hskip⟩
      rw [hcf] at hfire hskip
      exact ⟨Lmid, ledgerEvol_trans (pf_evol now selfUser u fold' st) he1, he2,
        hfire, hskip⟩

theorem pu_zero (now : Nat) (selfUser : String) (store : List (String × Folder))
    (st : P2State)
    (hown : ∀ p ∈ store, p.1 = selfUser → ∀ e ∈ p.2, is_letter_file e.1 = true →
      ∃ lf, lookupA st.local_folder e.1 = some lf ∧
        ¬(get_file_hash (some e.2) ≠ get_file_hash (some lf) ∧ e.2.mtime > lf.mtime))
    (hfor : ∀ p ∈ store, p.1 ≠ selfUser → ∀ e ∈ p.2, is_letter_file e.1 = true →
      needs_sync st.ledger e.1 e.2
        (lookupA ((lookupA st.community p.1).getD []) e.1) = false) :
    sync_shared_to_local_users now selfUser store st = st := by
  induction store with
  | nil => rfl
  | cons p rest ih =>
    obtain ⟨u, fold⟩ := p
    rw [sync_shared_to_local_users,
      pf_zero now selfUser u fold st
        (fun hu => hown (u, fold) (List.mem_cons_self ..) hu)
        (fun hu => hfor (u, fold) (List.mem_cons_self ..) hu)]
    exact ih (fun p hp => hown p (List.mem_cons_of_mem _ hp))
      (fun p hp => hfor p (List.mem_cons_of_mem _ hp))

/-! ### `ensure_user` and further helpers -/

theorem lookupA_append_right {α : Type} (l : List (String × α)) (k : String) (v : α)
    (h : lookupA l k = none) : lookupA (l ++ [(k, v)]) k = some v := by
  induction l with
  | nil => simp [lookupA]
  | cons p rest ih =>
    obtain ⟨a, b⟩ := p
    by_cases ha : k = a
    · subst ha
      rw [lookupA, if_pos rfl] at h
      exact absurd h (by simp)
    · rw [lookupA, if_neg ha] at h
      rw [List.cons_append, lookupA, if_neg ha]
      exact ih h

theorem lookupA_append_left {α : Type} (l l₂ : List (String × α)) (k : String) (v : α)
    (h : lookupA l k = some v) : lookupA (l ++ l₂) k = some v := by
  induction l with
  | nil => simp [lookupA] at h
  | cons p rest ih =>
    obtain ⟨a, b⟩ := p
    by_cases ha : k = a
    · subst ha
      rw [lookupA, if_pos rfl] at h
      rw [List.cons_append, lookupA, if_pos rfl]
      exact h
    · rw [lookupA, if_neg ha] at h
      rw [List.cons_append, lookupA, if_neg ha]
      exact ih h

theorem lookupA_append_other {α : Type} (l : List (String × α)) (k u : String) (v : α)
    (h : k ≠ u) : lookupA (l ++ [(u, v)]) k = lookupA l k := by
  induction l with
  | nil => simp [lookupA, h]
  | cons p rest ih =>
    obtain ⟨a, b⟩ := p
    by_cases ha : k = a
    · subst ha
      rw [List.cons_append, lookupA, if_pos rfl, lookupA, if_pos rfl]
    · rw [List.cons_append, lookupA, if_neg ha, lookupA, if_neg ha]
      exact ih

theorem ensure_user_self (store : List (String × Folder)) (username : String) :
    lookupA (ensure_user store username) username =
      some ((lookupA store username).getD []) := by
  rw [ensure_user]
  cases h : lookupA store username with
  | none =>
    rw [lookupA_append_right store username [] h]
    rfl
  | some uf =>
    rw [h]
    rfl

theorem ensure_user_other (store : List (String × Folder)) (username u : String)
    (hu : u ≠ username) :
    lookupA (ensure_user store username) u = lookupA store u := by
  rw [ensure_user]
  cases h : lookupA store username with
  | none => exact lookupA_append_other store u username [] hu
  | some uf => rfl

theorem ensure_user_id (store : List (String × Folder)) (username : String)
    (uf : Folder) (h : lookupA store username = some uf) :
    ensure_user store username = store := by
  rw [ensure_user, h]

theorem mem_keys_lookupA {α : Type} {l : List (String × α)} {k : String}
    (h : k ∈ l.map Prod.fst) : ∃ v, lookupA l k = some v := by
  induction l with
  | nil => simp at h
  | cons p rest ih =>
    obtain ⟨a, b⟩ := p
    by_cases ha : k = a
    · subst ha
      exact ⟨b, by rw [lookupA, if_pos rfl]⟩
    · rw [List.map_cons, List.mem_cons] at h
      rcases h with h | h
      · exact absurd h ha
      · rw [lookupA, if_neg ha]
        exact ih h

theorem ensure_user_nodup (store : List (String × Folder)) (username : String)
    (h : (store.map Prod.fst).Nodup) :
    ((ensure_user store username).map Prod.fst).Nodup := by
  rw [ensure_user]
  cases hl : lookupA store username with
  | some uf => exact h
  | none =>
    rw [List.map_append]
    refine List.Nodup.append h (by simp) ?_
    intro a ha hb
    simp only [List.map_cons, List.map_nil, List.mem_singleton] at hb
    subst hb
    rcases mem_keys_lookupA ha with ⟨v, hv⟩
    rw [hv] at hl
    exact Option.noConfusion hl

theorem mem_ensure_user {store : List (String × Folder)} {username : String}
    {p : String × Folder} (h : p ∈ ensure_user store username) :
    p ∈ store ∨ p = (username, []) := by
  rw [ensure_user] at h
  cases hl : lookupA store username with
  | some uf =>
    rw [hl] at h
    exact Or.inl h
  | none =>
    rw [hl] at h
    rcases List.mem_append.mp h with h' | h'
    · exact Or.inl h'
    · exact Or.inr (by simpa using h')

theorem append_ne_of_getLast_ne (a b t₁ t₂ : String) (h₁ : t₁.data ≠ [])
    (h₂ : t₂.data ≠ []) (hne : t₁.data.getLast? ≠ t₂.data.getLast?) :
    a ++ t₁ ≠ b ++ t₂ := by
  intro h
  apply hne
  rw [← append_getLast a t₁ h₁, ← append_getLast b t₂ h₂, h]

theorem html_name_ne_md_name (d d' : String) :
    "nova_letter_" ++ d ++ ".html" ≠ "nova_letter_" ++ d' ++ ".md" :=
  append_ne_of_getLast_ne _ _ ".html" ".md" (by decide) (by decide) (by decide)

/-! ### Claim C2 — the `ShouldSync` decision rule -/

/-- C2: `_needs_sync` decides exactly the spec's `ShouldSync` rule: true when
the destination is missing; with a recorded last-sync time `t_last`, true iff
`sourceModTime > t_last` and `sourceModTime > destModTime`; with no record,
true iff `sourceModTime > destModTime`.  Moreover the staleness guard holds:
if the file was recorded as synced at time `t_last` and the source's
modification time is at most `t_last`, the decision is false for every
existing destination, whatever the destination's modification time. -/
theorem needs_sync_matches_spec (ledger : Ledger) (filename : String) (src : FileEntry)
    (dst : Option FileEntry) (tLast : Nat) :
    needs_sync ledger filename src dst = needs_sync_spec ledger filename src dst ∧
    (lookupA ledger filename = some tLast → src.mtime ≤ tLast →
      ∀ d : FileEntry, needs_sync ledger filename src (some d) = false) := by
  constructor
  · cases dst with
    | none => rfl
    | some d =>
      cases h : lookupA ledger filename with
      | none => simp [needs_sync, needs_sync_spec, h]
      | some t => simp [needs_sync, needs_sync_spec, h]
  · intro h1 h2 d
    rw [needs_sync, h1]
    have hng : ¬(src.mtime > tLast) := by omega
    simp [hng]

/-- Witness for C2: with ledger entry 50 and source modification time 40 ≤ 50,
the decision is false even though the destination looks older than the source. -/
theorem needs_sync_matches_spec_witness :
    needs_sync [("nova_letter_20250601.md", 50)] "nova_letter_20250601.md"
      ⟨"A", 40⟩ (some ⟨"B", 10⟩) = false :=
  (needs_sync_matches_spec [("nova_letter_20250601.md", 50)] "nova_letter_20250601.md"
    ⟨"A", 40⟩ (some ⟨"B", 10⟩) 50).2 (by decide) (by decide) ⟨"B", 10⟩

/-! ### Claim C6 — missing shared store aborts the run -/

/-- C6 (amended): when the shared store is unset or nonexistent,
`bidirectional_sync` aborts immediately — the state is untouched, all three
counters are zero and it returns the normal value `False` instead of raising.
However that `False` is exactly what a successful run with zero eligible
changes also returns, so the two outcomes are not distinguishable from the
result; only the printed log line differs. -/
theorem bidirectional_sync_unavailable_aborts (now : Nat) (s : SyncState)
    (h : s.shared = none) : bidirectional_sync now s = ⟨s, 0, 0, 0, false⟩ := by
  rw [bidirectional_sync.eq_def, h]

/-- Witness for C6 (amended) at a concrete state with an unset shared store. -/
theorem bidirectional_sync_unavailable_aborts_witness :
    bidirectional_sync 100
      ⟨"me", [("nova_letter_20250101.md", ⟨"X", 5⟩)], none, [], []⟩ =
      ⟨⟨"me", [("nova_letter_20250101.md", ⟨"X", 5⟩)], none, [], []⟩, 0, 0, 0, false⟩ :=
  bidirectional_sync_unavailable_aborts 100
    ⟨"me", [("nova_letter_20250101.md", ⟨"X", 5⟩)], none, [], []⟩ rfl

/-- C6 counterexample: the claim asserts the aborted result is distinguishable
from a successful zero-change run's result.  It is not: the aborted run (shared
store `none`) and a fully synchronized run that found nothing to do both
return `False` with all counters zero — identical observable results. -/
theorem abort_result_equals_quiet_result_counterexample :
    (bidirectional_sync 100
      ⟨"me", [("nova_letter_20250605.md", ⟨"H1", 10⟩)], none, [], []⟩).returned
        = false ∧
    (bidirectional_sync 100
      ⟨"me", [("nova_letter_20250605.md", ⟨"H1", 10⟩)],
        some [("me", [("nova_letter_20250605.md", ⟨"H1", 10⟩)])], [], []⟩).returned
        = false ∧
    (bidirectional_sync 100
      ⟨"me", [("nova_letter_20250605.md", ⟨"H1", 10⟩)],
        some [("me", [("nova_letter_20250605.md", ⟨"H1", 10⟩)])], [], []⟩).pushed
        = 0 ∧
    (bidirectional_sync 100
      ⟨"me", [("nova_letter_20250605.md", ⟨"H1", 10⟩)],
        some [("me", [("nova_letter_20250605.md", ⟨"H1", 10⟩)])], [], []⟩).pulled
        = 0 ∧
    (bidirectional_sync 100
      ⟨"me", [("nova_letter_20250605.md", ⟨"H1", 10⟩)],
        some [("me", [("nova_letter_20250605.md", ⟨"H1", 10⟩)])], [], []⟩).conflicts
        = 0 := by
  decide

/-! ### Claim C9 — two serializations of one letter -/

/-- C9 counterexample: local has both `nova_letter_20250610.html` (mtime 10)
and `nova_letter_20250610.md` (mtime 99).  The claim says the most recently
modified (the `.md`) is pushed; `sync_letter` instead pushes the `.html` one
and leaves the `.md` unsynced. -/
theorem sync_letter_pushes_older_html_counterexample :
    (sync_letter 1000
      ⟨"me", [("nova_letter_20250610.html", ⟨"H", 10⟩),
        ("nova_letter_20250610.md", ⟨"M", 99⟩)], some [], [], []⟩ "20250610").2
      = true ∧
    lookupA ((lookupA ((sync_letter 1000
      ⟨"me", [("nova_letter_20250610.html", ⟨"H", 10⟩),
        ("nova_letter_20250610.md", ⟨"M", 99⟩)], some [], [], []⟩
        "20250610").1.shared.getD []) "me").getD []) "nova_letter_20250610.html"
      = some ⟨"H", 10⟩ ∧
    lookupA ((lookupA ((sync_letter 1000
      ⟨"me", [("nova_letter_20250610.html", ⟨"H", 10⟩),
        ("nova_letter_20250610.md", ⟨"M", 99⟩)], some [], [], []⟩
        "20250610").1.shared.getD []) "me").getD []) "nova_letter_20250610.md"
      = none := by
  decide

/-- C9 (amended): when both serializations of a letter exist locally,
`sync_letter` resolves the ambiguity by always pushing the `.html` file,
regardless of which of the two is more recently modified; the `.md` entry of
the shared folder is left exactly as it was. -/
theorem sync_letter_prefers_html (now : Nat) (s : SyncState) (d : String)
    (store : List (String × Folder)) (fhtml : FileEntry)
    (hs : s.shared = some store)
    (hh : lookupA s.local_folder ("nova_letter_" ++ d ++ ".html") = some fhtml) :
    (sync_letter now s d).2 = true ∧
    lookupA ((lookupA ((sync_letter now s d).1.shared.getD []) s.username).getD [])
      ("nova_letter_" ++ d ++ ".html") = some fhtml ∧
    lookupA ((lookupA ((sync_letter now s d).1.shared.getD []) s.username).getD [])
      ("nova_letter_" ++ d ++ ".md") =
      lookupA ((lookupA store s.username).getD []) ("nova_letter_" ++ d ++ ".md") := by
  rw [sync_letter.eq_def, hs]
  simp only [hh]
  refine ⟨trivial, ?_, ?_⟩
  · simp only [Option.getD_some]
    rw [lookupA_updateA_self]
    simp only [Option.getD_some]
    rw [lookupA_updateA_self]
  · simp only [Option.getD_some]
    rw [lookupA_updateA_self]
    simp only [Option.getD_some]
    rw [lookupA_updateA_ne _ _ _ _ (html_name_ne_md_name d d).symm, ensure_user_self]
    simp only [Option.getD_some]

/-- Witness for C9 (amended) at the counterexample's concrete state. -/
theorem sync_letter_prefers_html_witness :
    (sync_letter 1000
      ⟨"me", [("nova_letter_20250610.html", ⟨"H", 10⟩),
        ("nova_letter_20250610.md", ⟨"M", 99⟩)], some [], [], []⟩ "20250610").2
      = true ∧
    lookupA ((lookupA ((sync_letter 1000
      ⟨"me", [("nova_letter_20250610.html", ⟨"H", 10⟩),
        ("nova_letter_20250610.md", ⟨"M", 99⟩)], some [], [], []⟩
        "20250610").1.shared.getD []) "me").getD [])
      ("nova_letter_" ++ "20250610" ++ ".html") = some ⟨"H", 10⟩ :=
  ⟨(sync_letter_prefers_html 1000
      ⟨"me", [("nova_letter_20250610.html", ⟨"H", 10⟩),
        ("nova_letter_20250610.md", ⟨"M", 99⟩)], some [], [], []⟩ "20250610" [] ⟨"H", 10⟩
      rfl (by decide)).1,
    (sync_letter_prefers_html 1000
      ⟨"me", [("nova_letter_20250610.html", ⟨"H", 10⟩),
        ("nova_letter_20250610.md", ⟨"M", 99⟩)], some [], [], []⟩ "20250610" [] ⟨"H", 10⟩
      rfl (by decide)).2.1⟩

/-! ### Claim C5 — error handling granularity -/

/-- C5 counterexample: two local letters both need pushing; the copy of the
first raises an I/O error.  The claim says the error is caught per-document
and the run still processes every remaining document.  Instead the whole run
is aborted: the second letter (which `_needs_sync` approves) is never pushed,
although the error is indeed caught (the run returns `False`, no exception). -/
theorem error_skips_remaining_documents_counterexample :
    needs_sync [] "nova_letter_20250602.md" ⟨"B", 10⟩ none = true ∧
    (bidirectional_sync_f ["nova_letter_20250601.md"] 100
      ⟨"me", [("nova_letter_20250601.md", ⟨"A", 10⟩),
        ("nova_letter_20250602.md", ⟨"B", 10⟩)],
        some [("me", [])], [], []⟩).returned = false ∧
    lookupA ((lookupA ((bidirectional_sync_f ["nova_letter_20250601.md"] 100
      ⟨"me", [("nova_letter_20250601.md", ⟨"A", 10⟩),
        ("nova_letter_20250602.md", ⟨"B", 10⟩)],
        some [("me", [])], [], []⟩).state.shared.getD []) "me").getD [])
      "nova_letter_20250602.md" = none := by
  decide

/-- C5 (amended): an I/O error raised while pushing one document does not
escape `bidirectional_sync` — the `try/except` catches it and the function
returns the normal value `False` — but the error aborts the remainder of the
run at the whole-run granularity, not per document: the documents after the
failing one in the push phase are skipped, and the pull and conflict phases
never run (pull and conflict counters are zero, the local folder and the
community mirror are untouched). -/
theorem io_error_caught_aborts_run (failing : List String) (now : Nat) (s : SyncState)
    (store : List (String × Folder)) (hs : s.shared = some store)
    (herr : (sync_local_to_shared_go_f failing now s.local_folder
      ((lookupA (ensure_user store s.username) s.username).getD [])
      s.last_sync_times 0).2.2.2 = true) :
    (bidirectional_sync_f failing now s).returned = false ∧
    (bidirectional_sync_f failing now s).pulled = 0 ∧
    (bidirectional_sync_f failing now s).conflicts = 0 ∧
    (bidirectional_sync_f failing now s).state.local_folder = s.local_folder ∧
    (bidirectional_sync_f failing now s).state.community = s.community := by
  rw [bidirectional_sync_f.eq_def, hs]
  simp [herr]

/-- Witness for C5 (amended) at the counterexample's concrete state. -/
theorem io_error_caught_aborts_run_witness :
    (bidirectional_sync_f ["nova_letter_20250601.md"] 100
      ⟨"me", [("nova_letter_20250601.md", ⟨"A", 10⟩),
        ("nova_letter_20250602.md", ⟨"B", 10⟩)],
        some [("me", [])], [], []⟩).returned = false ∧
    (bidirectional_sync_f ["nova_letter_20250601.md"] 100
      ⟨"me", [("nova_letter_20250601.md", ⟨"A", 10⟩),
        ("nova_letter_20250602.md", ⟨"B", 10⟩)],
        some [("me", [])], [], []⟩).pulled = 0 :=
  ⟨(io_error_caught_aborts_run ["nova_letter_20250601.md"] 100
      ⟨"me", [("nova_letter_20250601.md", ⟨"A", 10⟩),
        ("nova_letter_20250602.md", ⟨"B", 10⟩)],
        some [("me", [])], [], []⟩ [("me", [])] rfl (by decide)).1,
    (io_error_caught_aborts_run ["nova_letter_20250601.md"] 100
      ⟨"me", [("nova_letter_20250601.md", ⟨"A", 10⟩),
        ("nova_letter_20250602.md", ⟨"B", 10⟩)],
        some [("me", [])], [], []⟩ [("me", [])] rfl (by decide)).2.1⟩

/-! ### Claim C1 — conflict resolution tie-break -/

/-- C1 counterexample: both replicas of `nova_letter_20250605.md` have the
same modification time 100 but different contents (`"A"` locally, `"B"`
shared).  The claim says the tie is resolved in favor of the shared replica;
`_detect_and_resolve_conflicts` instead takes the `else` branch, so the LOCAL
content `"A"` wins on both sides and the shared content is backed up. -/
theorem tie_goes_to_local_counterexample :
    (detect_and_resolve_conflicts 1000
      [("nova_letter_20250605.md", ⟨"A", 100⟩)]
      [("nova_letter_20250605.md", ⟨"B", 100⟩)] []).count = 1 ∧
    lookupA (detect_and_resolve_conflicts 1000
      [("nova_letter_20250605.md", ⟨"A", 100⟩)]
      [("nova_letter_20250605.md", ⟨"B", 100⟩)] []).local_folder
      "nova_letter_20250605.md" = some ⟨"A", 100⟩ ∧
    lookupA (detect_and_resolve_conflicts 1000
      [("nova_letter_20250605.md", ⟨"A", 100⟩)]
      [("nova_letter_20250605.md", ⟨"B", 100⟩)] []).user_folder
      "nova_letter_20250605.md" = some ⟨"A", 100⟩ ∧
    lookupA (detect_and_resolve_conflicts 1000
      [("nova_letter_20250605.md", ⟨"A", 100⟩)]
      [("nova_letter_20250605.md", ⟨"B", 100⟩)] []).user_folder
      "nova_letter_20250605.md.shared_backup" = some ⟨"B", 100⟩ := by
  decide

/-- C1 (amended): for every letter present in both replicas with differing
content hashes, `_detect_and_resolve_conflicts` picks the replica with the
strictly later modification time as winner; when the two modification times
are exactly EQUAL the LOCAL replica wins (the `else` branch of
sync.py:243-254), not the shared one as the claim states. -/
theorem conflict_newer_wins_ties_local (now : Nat) (lf uf : Folder) (ledger : Ledger)
    (f : String) (lfile sfile : FileEntry)
    (hnl : (lf.map Prod.fst).Nodup)
    (hl : lookupA lf f = some lfile) (hu : lookupA uf f = some sfile)
    (hletter : is_letter_file f = true) (hdiff : lfile.content ≠ sfile.content) :
    (sfile.mtime > lfile.mtime →
      lookupA (detect_and_resolve_conflicts now lf uf ledger).local_folder f =
        some sfile ∧
      lookupA (detect_and_resolve_conflicts now lf uf ledger).user_folder f =
        some sfile) ∧
    (sfile.mtime ≤ lfile.mtime →
      lookupA (detect_and_resolve_conflicts now lf uf ledger).local_folder f =
        some lfile ∧
      lookupA (detect_and_resolve_conflicts now lf uf ledger).user_folder f =
        some lfile) := by
  simp only [detect_and_resolve_conflicts]
  have hpt := p3_point now lf ⟨lf, uf, ledger, 0⟩ f lfile hnl (lookupA_mem hl) hletter
  have h2 := (hpt.2 sfile hu).2 hdiff
  constructor
  · intro hm
    rcases h2.1 hm with ⟨ha, _, hb, _⟩
    exact ⟨ha, hb⟩
  · intro hm
    have hnm : ¬ sfile.mtime > lfile.mtime := by omega
    rcases h2.2 hnm with ⟨ha, hb, _, _⟩
    exact ⟨by rw [ha]; exact hl, hb⟩

/-- Witness for C1 (amended) at the tie input: equal modification times,
local content wins on both replicas. -/
theorem conflict_newer_wins_ties_local_witness :
    lookupA (detect_and_resolve_conflicts 1000
      [("nova_letter_20250605.md", ⟨"A", 100⟩)]
      [("nova_letter_20250605.md", ⟨"B", 100⟩)] []).local_folder
      "nova_letter_20250605.md" = some ⟨"A", 100⟩ ∧
    lookupA (detect_and_resolve_conflicts 1000
      [("nova_letter_20250605.md", ⟨"A", 100⟩)]
      [("nova_letter_20250605.md", ⟨"B", 100⟩)] []).user_folder
      "nova_letter_20250605.md" = some ⟨"A", 100⟩ :=
  (conflict_newer_wins_ties_local 1000
    [("nova_letter_20250605.md", ⟨"A", 100⟩)]
    [("nova_letter_20250605.md", ⟨"B", 100⟩)] [] "nova_letter_20250605.md"
    ⟨"A", 100⟩ ⟨"B", 100⟩ (by decide) (by decide) (by decide) (by decide)
    (by decide)).2 (by decide)

/-! ### Claim C7 — divergent pair with shared strictly newer -/

/-- C7 counterexample: local and shared-own both hold
`nova_letter_20250605.md` with different contents, local mtime 100, shared
mtime 105.  The claim says the run's summary counts this resolution as one
conflict (`conflicts:1`); in fact phase B (`_sync_shared_to_local`) resolves
it and counts it as one incoming pull, and the conflict phase then sees equal
hashes, so the summary is `pulled:1, conflicts:0`. -/
theorem conflict_counted_as_pull_counterexample :
    (bidirectional_sync 1000
      ⟨"me", [("nova_letter_20250605.md", ⟨"A", 100⟩)],
        some [("me", [("nova_letter_20250605.md", ⟨"B", 105⟩)])], [], []⟩).conflicts
      = 0 ∧
    (bidirectional_sync 1000
      ⟨"me", [("nova_letter_20250605.md", ⟨"A", 100⟩)],
        some [("me", [("nova_letter_20250605.md", ⟨"B", 105⟩)])], [], []⟩).pulled
      = 1 := by
  decide

/-- C7 (amended): for a letter present in both Local and SharedOwn with
differing hashes and the shared copy strictly newer, one full run ends with
the local bytes equal to the shared bytes, a `.local_backup` holding the
pre-run local bytes, the pair resolved exactly once — but the summary counts
the resolution as one incoming pull (`pulled:1`), not as a conflict
(`conflicts:0`).  Stated for the run on the canonical one-letter state with
arbitrary contents `a ≠ b` and modification times `t₁ < t₂`. -/
theorem shared_newer_resolved_as_pull (u a b : String) (t₁ t₂ now : Nat)
    (hab : a ≠ b) (ht : t₁ < t₂) :
    (bidirectional_sync now
      ⟨u, [("nova_letter_20250605.md", (⟨a, t₁⟩ : FileEntry))],
        some [(u, [("nova_letter_20250605.md", (⟨b, t₂⟩ : FileEntry))])], [], []⟩).pushed = 0 ∧
    (bidirectional_sync now
      ⟨u, [("nova_letter_20250605.md", (⟨a, t₁⟩ : FileEntry))],
        some [(u, [("nova_letter_20250605.md", (⟨b, t₂⟩ : FileEntry))])], [], []⟩).pulled = 1 ∧
    (bidirectional_sync now
      ⟨u, [("nova_letter_20250605.md", (⟨a, t₁⟩ : FileEntry))],
        some [(u, [("nova_letter_20250605.md", (⟨b, t₂⟩ : FileEntry))])], [], []⟩).conflicts = 0 ∧
    (bidirectional_sync now
      ⟨u, [("nova_letter_20250605.md", (⟨a, t₁⟩ : FileEntry))],
        some [(u, [("nova_letter_20250605.md", (⟨b, t₂⟩ : FileEntry))])], [], []⟩).returned = true ∧
    (bidirectional_sync now
      ⟨u, [("nova_letter_20250605.md", (⟨a, t₁⟩ : FileEntry))],
        some [(u, [("nova_letter_20250605.md", (⟨b, t₂⟩ : FileEntry))])], [], []⟩).state =
      ⟨u, [("nova_letter_20250605.md", (⟨b, t₂⟩ : FileEntry)),
            ("nova_letter_20250605.md.local_backup", (⟨a, t₁⟩ : FileEntry))],
        some [(u, [("nova_letter_20250605.md", (⟨b, t₂⟩ : FileEntry))])], [],
        [("nova_letter_20250605.md", now)]⟩ := by
  have hlf : is_letter_file "nova_letter_20250605.md" = true := by decide
  have hens : ensure_user [(u, [("nova_letter_20250605.md", (⟨b, t₂⟩ : FileEntry))])] u =
      [(u, [("nova_letter_20250605.md", (⟨b, t₂⟩ : FileEntry))])] :=
    ensure_user_id _ _ _ (by rw [lookupA, if_pos rfl])
  have hluf : (lookupA [(u, [("nova_letter_20250605.md", (⟨b, t₂⟩ : FileEntry))])]
      u).getD [] = [("nova_letter_20250605.md", (⟨b, t₂⟩ : FileEntry))] := by
    rw [lookupA, if_pos rfl]
    rfl
  have hp1 : sync_local_to_shared now [("nova_letter_20250605.md", (⟨a, t₁⟩ : FileEntry))]
      [("nova_letter_20250605.md", (⟨b, t₂⟩ : FileEntry))] [] =
      ([("nova_letter_20250605.md", (⟨b, t₂⟩ : FileEntry))], [], 0) := by
    rw [sync_local_to_shared]
    apply p1_zero
    intro e he hel
    simp only [List.mem_singleton] at he
    subst he
    rw [lookupA, if_pos rfl, needs_sync]
    simp only [lookupA]
    simp only [decide_eq_false_iff_not]
    omega
  have hupd : updateA [(u, [("nova_letter_20250605.md", (⟨b, t₂⟩ : FileEntry))])] u
      [("nova_letter_20250605.md", (⟨b, t₂⟩ : FileEntry))] =
      [(u, [("nova_letter_20250605.md", (⟨b, t₂⟩ : FileEntry))])] := by
    rw [updateA, if_pos rfl]
  have hcond : get_file_hash (some (⟨b, t₂⟩ : FileEntry)) ≠
      get_file_hash (some (⟨a, t₁⟩ : FileEntry)) ∧
      (⟨b, t₂⟩ : FileEntry).mtime > (⟨a, t₁⟩ : FileEntry).mtime :=
    ⟨(get_file_hash_ne_iff (⟨b, t₂⟩ : FileEntry) (⟨a, t₁⟩ : FileEntry)).mpr (fun h => hab h.symm), ht⟩
  have hown : sync_shared_to_local_own now "nova_letter_20250605.md" (⟨b, t₂⟩ : FileEntry)
      ⟨[("nova_letter_20250605.md", (⟨a, t₁⟩ : FileEntry))], [], [], 0⟩ =
      ⟨[("nova_letter_20250605.md", (⟨b, t₂⟩ : FileEntry)),
        ("nova_letter_20250605.md.local_backup", (⟨a, t₁⟩ : FileEntry))], [],
        [("nova_letter_20250605.md", now)], 1⟩ := by
    rw [own_some now "nova_letter_20250605.md" (⟨b, t₂⟩ : FileEntry) (⟨a, t₁⟩ : FileEntry) _
      (by rw [lookupA, if_pos rfl]), if_pos hcond]
    rfl
  have hp2 : sync_shared_to_local now u [(u, [("nova_letter_20250605.md", (⟨b, t₂⟩ : FileEntry))])]
      [("nova_letter_20250605.md", (⟨a, t₁⟩ : FileEntry))] [] [] =
      ⟨[("nova_letter_20250605.md", (⟨b, t₂⟩ : FileEntry)),
        ("nova_letter_20250605.md.local_backup", (⟨a, t₁⟩ : FileEntry))], [],
        [("nova_letter_20250605.md", now)], 1⟩ := by
    rw [sync_shared_to_local, sync_shared_to_local_users,
      sync_shared_to_local_folder, if_pos hlf, if_pos rfl, hown]
    rfl
  have hp3 : detect_and_resolve_conflicts now
      [("nova_letter_20250605.md", (⟨b, t₂⟩ : FileEntry)),
        ("nova_letter_20250605.md.local_backup", (⟨a, t₁⟩ : FileEntry))]
      [("nova_letter_20250605.md", (⟨b, t₂⟩ : FileEntry))]
      [("nova_letter_20250605.md", now)] =
      ⟨[("nova_letter_20250605.md", (⟨b, t₂⟩ : FileEntry)),
        ("nova_letter_20250605.md.local_backup", (⟨a, t₁⟩ : FileEntry))],
        [("nova_letter_20250605.md", (⟨b, t₂⟩ : FileEntry))],
        [("nova_letter_20250605.md", now)], 0⟩ := by
    rw [detect_and_resolve_conflicts]
    apply p3_zero
    intro e he hel sf hsf
    rcases List.mem_cons.mp he with h' | h'
    · subst h'
      simp only at hsf
      rw [lookupA, if_pos rfl] at hsf
      cases hsf
      rfl
    · simp only [List.mem_singleton] at h'
      subst h'
      have hel' : is_letter_file "nova_letter_20250605.md.local_backup" = true := hel
      exact absurd hel' (by decide)
  rw [bidirectional_sync.eq_def]
  simp only [hens, hluf, hp1, hupd, hown, hp2, hp3]
  exact ⟨trivial, trivial, trivial, by decide, trivial⟩

/-- Witness for C7 (amended) at the concrete scenario of the spec. -/
theorem shared_newer_resolved_as_pull_witness :
    (bidirectional_sync 1000
      ⟨"me", [("nova_letter_20250605.md", ⟨"A", 100⟩)],
        some [("me", [("nova_letter_20250605.md", ⟨"B", 105⟩)])], [], []⟩).pulled
      = 1 ∧
    (bidirectional_sync 1000
      ⟨"me", [("nova_letter_20250605.md", ⟨"A", 100⟩)],
        some [("me", [("nova_letter_20250605.md", ⟨"B", 105⟩)])], [], []⟩).state =
      ⟨"me", [("nova_letter_20250605.md", ⟨"B", 105⟩),
        ("nova_letter_20250605.md.local_backup", ⟨"A", 100⟩)],
        some [("me", [("nova_letter_20250605.md", ⟨"B", 105⟩)])], [],
        [("nova_letter_20250605.md", 1000)]⟩ :=
  ⟨(shared_newer_resolved_as_pull "me" "A" "B" 100 105 1000 (by decide)
      (by decide)).2.1,
    (shared_newer_resolved_as_pull "me" "A" "B" 100 105 1000 (by decide)
      (by decide)).2.2.2.2⟩

/-! ### Claim C8 — one-way community isolation -/

/-- C8: one-way community isolation.  For every other user `u` (distinct from
the current username), a full `bidirectional_sync` run leaves `u`'s subfolder
of the shared store exactly as it was: the engine never writes, overwrites or
deletes anything there.  All shared-store writes of the run (push phase and
conflict phase) go to the current user's own subfolder, and foreign documents
flow only into the local community mirror. -/
theorem community_isolation (now : Nat) (s : SyncState) (u : String)
    (hu : u ≠ s.username) :
    lookupA ((bidirectional_sync now s).state.shared.getD []) u =
      lookupA (s.shared.getD []) u := by
  cases hs : s.shared with
  | none =>
    rw [bidirectional_sync_unavailable_aborts now s hs]
    simp only
    rw [hs]
  | some store =>
    rw [bidirectional_sync.eq_def, hs]
    simp only [Option.getD_some]
    rw [lookupA_updateA_ne _ _ _ _ hu, lookupA_updateA_ne _ _ _ _ hu,
      ensure_user_other store s.username u hu]

/-- Witness for C8: a run that pushes, pulls and mirrors leaves the other
user's shared folder untouched. -/
theorem community_isolation_witness :
    lookupA ((bidirectional_sync 1000
      ⟨"me", [("nova_letter_20250605.md", ⟨"A", 100⟩)],
        some [("me", [("nova_letter_20250605.md", ⟨"B", 105⟩)]),
          ("other", [("nova_letter_20250501.md", ⟨"C", 7⟩)])], [], []⟩).state.shared.getD
        []) "other" =
      lookupA ((some [("me", [("nova_letter_20250605.md", (⟨"B", 105⟩ : FileEntry))]),
        ("other", [("nova_letter_20250501.md", ⟨"C", 7⟩)])] :
          Option (List (String × Folder))).getD []) "other" :=
  community_isolation 1000
    ⟨"me", [("nova_letter_20250605.md", ⟨"A", 100⟩)],
      some [("me", [("nova_letter_20250605.md", ⟨"B", 105⟩)]),
        ("other", [("nova_letter_20250501.md", ⟨"C", 7⟩)])], [], []⟩ "other" (by decide)

/-! ### Claim C10 — backup artifacts and the letter-file filter -/

theorem str_endswith_append (g t : String) : str_endswith (g ++ t) t = true := by
  simp only [str_endswith, String.data_append, decide_eq_true_eq]
  exact List.suffix_append g.data t.data

theorem ne_of_endswith_false (name t g : String)
    (h : str_endswith name t = false) : name ≠ g ++ t := by
  intro heq
  rw [heq, str_endswith_append] at h
  exact Bool.noConfusion h

theorem backup_not_letter_local (g : String) :
    is_letter_file (g ++ ".local_backup") = false := by
  rw [is_letter_file]
  have h1 : str_endswith (g ++ ".local_backup") ".html" = false := by
    rw [str_endswith]
    simp only [decide_eq_false_iff_not]
    intro hsfx
    have := getLast_of_suffix hsfx (by decide)
    rw [append_getLast g ".local_backup" (by decide)] at this
    exact absurd this (by decide)
  have h2 : str_endswith (g ++ ".local_backup") ".md" = false := by
    rw [str_endswith]
    simp only [decide_eq_false_iff_not]
    intro hsfx
    have := getLast_of_suffix hsfx (by decide)
    rw [append_getLast g ".local_backup" (by decide)] at this
    exact absurd this (by decide)
  rw [h1, h2]
  simp

theorem backup_not_letter_shared (g : String) :
    is_letter_file (g ++ ".shared_backup") = false := by
  rw [is_letter_file]
  have h1 : str_endswith (g ++ ".shared_backup") ".html" = false := by
    rw [str_endswith]
    simp only [decide_eq_false_iff_not]
    intro hsfx
    have := getLast_of_suffix hsfx (by decide)
    rw [append_getLast g ".shared_backup" (by decide)] at this
    exact absurd this (by decide)
  have h2 : str_endswith (g ++ ".shared_backup") ".md" = false := by
    rw [str_endswith]
    simp only [decide_eq_false_iff_not]
    intro hsfx
    have := getLast_of_suffix hsfx (by decide)
    rw [append_getLast g ".shared_backup" (by decide)] at this
    exact absurd this (by decide)
  rw [h1, h2]
  simp

/-- C10 counterexample: the claim says a backup created in one run survives
all later runs unchanged by the engine.  Run 1 resolves a conflict on
`nova_letter_20250605.md` and writes `nova_letter_20250605.md.shared_backup`
with the loser's bytes `"B"`.  After an external edit of ONLY the letter file
in the shared folder (the backup file is untouched by the edit, as the second
initial state shows), the next run resolves the new conflict and overwrites
the SAME backup path with the new loser's bytes `"C"` — the engine itself
destroys the old backup. -/
theorem backup_overwritten_by_later_run_counterexample :
    (bidirectional_sync 200 ⟨"me", [("nova_letter_20250605.md", ⟨"A", 10⟩)],
      some [("me", [("nova_letter_20250605.md", ⟨"B", 5⟩)])], [],
      [("nova_letter_20250605.md", 100)]⟩).state =
      ⟨"me", [("nova_letter_20250605.md", ⟨"A", 10⟩)],
        some [("me", [("nova_letter_20250605.md", ⟨"A", 10⟩),
          ("nova_letter_20250605.md.shared_backup", ⟨"B", 5⟩)])], [],
        [("nova_letter_20250605.md", 200)]⟩ ∧
    lookupA ((lookupA ((bidirectional_sync 300
      ⟨"me", [("nova_letter_20250605.md", ⟨"A", 10⟩)],
        some [("me", [("nova_letter_20250605.md", ⟨"C", 8⟩),
          ("nova_letter_20250605.md.shared_backup", ⟨"B", 5⟩)])], [],
        [("nova_letter_20250605.md", 200)]⟩).state.shared.getD []) "me").getD [])
      "nova_letter_20250605.md.shared_backup" = some ⟨"C", 8⟩ := by
  decide

/-- C10 (amended): every phase of a run enumerates only file names accepted
by `_is_letter_file` (`nova_letter_` prefix, `.md`/`.html` suffix), and
backup names never are: so a non-letter file is never pushed, pulled or
mirrored — the community mirror entry for any non-letter name is untouched by
a run, the local folder entry is untouched unless the name is itself a
`.local_backup` target, and the own shared folder entry is untouched unless
the name is a `.shared_backup` target.  However, backups are exactly those
targets: a later run that resolves a new conflict on the same letter
overwrites the same backup path, so a backup only survives later runs in
which no new conflict or pull touches its letter. -/
theorem backups_never_resynced (now : Nat) (s : SyncState) (name u g : String)
    (hnl : is_letter_file name = false) :
    is_letter_file (g ++ ".local_backup") = false ∧
    is_letter_file (g ++ ".shared_backup") = false ∧
    lookupA ((lookupA (bidirectional_sync now s).state.community u).getD []) name =
      lookupA ((lookupA s.community u).getD []) name ∧
    (str_endswith name ".local_backup" = false →
      lookupA (bidirectional_sync now s).state.local_folder name =
        lookupA s.local_folder name) ∧
    (str_endswith name ".shared_backup" = false →
      lookupA ((lookupA ((bidirectional_sync now s).state.shared.getD [])
          s.username).getD []) name =
        lookupA ((lookupA (s.shared.getD []) s.username).getD []) name) := by
  refine ⟨backup_not_letter_local g, backup_not_letter_shared g, ?_, ?_, ?_⟩
  · cases hs : s.shared with
    | none => rw [bidirectional_sync_unavailable_aborts now s hs]
    | some store =>
      rw [bidirectional_sync.eq_def, hs]
      simp only [sync_shared_to_local, detect_and_resolve_conflicts]
      rw [pu_comm_user]
      intro p hp hne hpu e he hel heq
      rw [heq] at hnl
      rw [hel] at hnl
      exact Bool.noConfusion hnl
  · intro hlb
    cases hs : s.shared with
    | none => rw [bidirectional_sync_unavailable_aborts now s hs]
    | some store =>
      rw [bidirectional_sync.eq_def, hs]
      simp only [sync_shared_to_local, detect_and_resolve_conflicts]
      rw [p3_frame_local, pu_local_frame]
      · intro p hp hpu e he hel
        refine ⟨fun heq => by rw [heq, hel] at hnl; exact Bool.noConfusion hnl, ?_⟩
        exact ne_of_endswith_false name ".local_backup" e.1 hlb
      · intro e he hel
        refine ⟨fun heq => by rw [heq, hel] at hnl; exact Bool.noConfusion hnl, ?_⟩
        exact ne_of_endswith_false name ".local_backup" e.1 hlb
  · intro hsb
    cases hs : s.shared with
    | none =>
      rw [bidirectional_sync_unavailable_aborts now s hs]
      simp only
      rw [hs]
    | some store =>
      have hfr : ∀ e ∈ s.local_folder, is_letter_file e.1 = true → e.1 ≠ name := by
        intro e he hel heq
        rw [heq] at hel
        rw [hel] at hnl
        exact Bool.noConfusion hnl
      rw [bidirectional_sync.eq_def, hs]
      simp only [sync_shared_to_local, detect_and_resolve_conflicts,
        sync_local_to_shared, Option.getD_some]
      rw [lookupA_updateA_self]
      simp only [Option.getD_some]
      rw [p3_frame_uf]
      · dsimp only
        rw [(p1_frame now s.local_folder
          ((lookupA (ensure_user store s.username) s.username).getD [])
          s.last_sync_times 0 name hfr).1, ensure_user_self]
        simp only [Option.getD_some]
      · intro e he hel
        refine ⟨fun heq => by rw [heq, hel] at hnl; exact Bool.noConfusion hnl, ?_⟩
        exact ne_of_endswith_false name ".shared_backup" e.1 hsb

/-- Witness for C10 (amended): a run that pushes and resolves conflicts
leaves an existing backup file and any non-letter file alone. -/
theorem backups_never_resynced_witness :
    lookupA (bidirectional_sync 400
      ⟨"me", [("nova_letter_20250605.md", ⟨"A", 10⟩),
        ("nova_letter_20250605.md.local_backup", ⟨"OLD", 1⟩)],
        some [("me", [])], [], []⟩).state.local_folder "notes.txt" =
      lookupA [("nova_letter_20250605.md", (⟨"A", 10⟩ : FileEntry)),
        ("nova_letter_20250605.md.local_backup", ⟨"OLD", 1⟩)] "notes.txt" ∧
    is_letter_file ("nova_letter_20250605.md" ++ ".local_backup") = false :=
  ⟨((backups_never_resynced 400
      ⟨"me", [("nova_letter_20250605.md", ⟨"A", 10⟩),
        ("nova_letter_20250605.md.local_backup", ⟨"OLD", 1⟩)],
        some [("me", [])], [], []⟩ "notes.txt" "u" "nova_letter_20250605.md"
      (by decide)).2.2.2.1 (by decide)),
    (backups_never_resynced 400
      ⟨"me", [("nova_letter_20250605.md", ⟨"A", 10⟩),
        ("nova_letter_20250605.md.local_backup", ⟨"OLD", 1⟩)],
        some [("me", [])], [], []⟩ "notes.txt" "u" "nova_letter_20250605.md"
      (by decide)).1⟩

/-! ### Support for the run-level theorems -/

/-- `_needs_sync` never fires when the source is not strictly newer than the
destination (both its ledger branch and its default branch require it). -/
theorem needs_sync_false_of_le (L : Ledger) (fn : String) (src d : FileEntry)
    (h : src.mtime ≤ d.mtime) : needs_sync L fn src (some d) = false := by
  cases h' : lookupA L fn with
  | none =>
    simp only [needs_sync, h', decide_eq_false_iff_not]
    omega
  | some t =>
    simp only [needs_sync, h', Bool.and_eq_false_imp, decide_eq_true_eq,
      decide_eq_false_iff_not]
    omega

theorem own_nodup_local (now : Nat) (filename : String) (sharedFile : FileEntry)
    (st : P2State) (h : (st.local_folder.map Prod.fst).Nodup) :
    (((sync_shared_to_local_own now filename sharedFile st).local_folder).map
      Prod.fst).Nodup := by
  cases hL : lookupA st.local_folder filename with
  | none =>
    rw [own_none now filename sharedFile st hL]
    exact nodup_updateA _ _ h
  | some localFile =>
    rw [own_some now filename sharedFile localFile st hL]
    by_cases hc : get_file_hash (some sharedFile) ≠ get_file_hash (some localFile) ∧
        sharedFile.mtime > localFile.mtime
    · rw [if_pos hc]
      exact nodup_updateA _ _ (nodup_updateA _ _ h)
    · rw [if_neg hc]
      exact h

theorem pf_nodup_local (now : Nat) (selfUser username : String)
    (entries : List (String × FileEntry)) (st : P2State)
    (h : (st.local_folder.map Prod.fst).Nodup) :
    (((sync_shared_to_local_folder now selfUser username entries st).local_folder).map
      Prod.fst).Nodup := by
  induction entries generalizing st with
  | nil => exact h
  | cons e rest ih =>
    obtain ⟨g, gf⟩ := e
    by_cases hg : is_letter_file g
    · rw [sync_shared_to_local_folder, if_pos hg]
      by_cases husr : username = selfUser
      · rw [if_pos husr]
        exact ih _ (own_nodup_local now g gf st h)
      · rw [if_neg husr]
        exact ih _ (by rw [foreign_local]; exact h)
    · rw [sync_shared_to_local_folder, if_neg hg]
      exact ih _ h

theorem pu_nodup_local (now : Nat) (selfUser : String)
    (store : List (String × Folder)) (st : P2State)
    (h : (st.local_folder.map Prod.fst).Nodup) :
    (((sync_shared_to_local_users now selfUser store st).local_folder).map
      Prod.fst).Nodup := by
  induction store generalizing st with
  | nil => exact h
  | cons p rest ih =>
    obtain ⟨u, fold⟩ := p
    rw [sync_shared_to_local_users]
    exact ih _ (pf_nodup_local now selfUser u fold st h)

/-- If the local copy of `f` matches the shared copy at the conflict phase,
that phase leaves `f`'s `.local_backup` slot alone (no other letter's
resolution can touch it either). -/
theorem p3_skip_backup (now : Nat) (entries : List (String × FileEntry))
    (st : P3State) (f : String) (lfile sfile : FileEntry)
    (hnd : (entries.map Prod.fst).Nodup) (hmem : (f, lfile) ∈ entries)
    (hletter : is_letter_file f = true)
    (hu : lookupA st.user_folder f = some sfile)
    (hceq : lfile.content = sfile.content) :
    lookupA (detect_and_resolve_conflicts_go now entries st).local_folder
      (f ++ ".local_backup") =
      lookupA st.local_folder (f ++ ".local_backup") := by
  induction entries generalizing st with
  | nil => rfl
  | cons e rest ih =>
    obtain ⟨g, gfile⟩ := e
    rw [List.map_cons] at hnd
    have hnd1 := (List.nodup_cons.mp hnd).1
    have hnd2 := (List.nodup_cons.mp hnd).2
    by_cases hgf : g = f
    · subst hgf
      have hfile : gfile = lfile := by
        rcases List.mem_cons.mp hmem with h' | h'
        · exact (congrArg Prod.snd h').symm
        · exact absurd (List.mem_map.mpr ⟨(g, lfile), h', rfl⟩) hnd1
      subst hfile
      have hstep : resolve_conflict_entry now g gfile st = st := by
        rw [rce_some now g gfile sfile st hu,
          if_neg (fun hne => (get_file_hash_ne_iff ..).mp hne hceq)]
      rw [detect_and_resolve_conflicts_go, if_pos hletter, hstep]
      apply p3_frame_local
      intro e he hel
      refine ⟨fun heq => letter_ne_local_backup hel g heq.symm, fun heq => ?_⟩
      exact hnd1 (List.mem_map.mpr ⟨e, he, (append_suffix_inj _ heq).symm⟩)
    · have hmem' : (f, lfile) ∈ rest := by
        rcases List.mem_cons.mp hmem with h' | h'
        · exact absurd (congrArg Prod.fst h').symm hgf
        · exact h'
      by_cases hg : is_letter_file g
      · rw [detect_and_resolve_conflicts_go, if_pos hg]
        have hu' : lookupA (resolve_conflict_entry now g gfile st).user_folder f =
            lookupA st.user_folder f :=
          rce_frame_uf _ _ _ _ _ (fun hh => hgf hh.symm)
            (fun hh => letter_ne_shared_backup hletter g hh)
        have hb' : lookupA (resolve_conflict_entry now g gfile st).local_folder
            (f ++ ".local_backup") =
            lookupA st.local_folder (f ++ ".local_backup") :=
          rce_frame_local _ _ _ _ _
            (fun hh => letter_ne_local_backup hg f hh.symm)
            (fun hh => hgf (append_suffix_inj _ hh.symm))
        rw [ih _ hnd2 hmem' (by rw [hu']; exact hu), hb']
      · rw [detect_and_resolve_conflicts_go, if_neg hg]
        exact ih _ hnd2 hmem' hu

/-! ### Claim C4 — no data loss on conflict -/

/-- C4: no data loss on a resolved conflict.  For every letter present in
both replicas with differing content: if the shared copy is strictly newer,
the run resolves it in the pull phase — after the run the winner's pre-run
bytes are at both canonical paths and the loser's pre-run bytes are at
`<filename>.local_backup` in the local folder (the backup is written before
the local file is overwritten, see `sync_shared_to_local_own`).  If the
shared copy is not newer and the push decision does not fire (which is
automatic on ties, since `_needs_sync` requires the source to be strictly
newer), the conflict phase resolves it the other way: the local bytes end up
at both canonical paths and the shared copy's pre-run bytes at
`<filename>.shared_backup` in the user's shared folder (written before the
shared file is overwritten, see `resolve_conflict_entry`).  The remaining
case — local strictly newer and approved by the ledger — is handled as a
plain push, not as a conflict resolution. -/
theorem no_data_loss_on_conflict (now : Nat) (s : SyncState)
    (store : List (String × Folder)) (f : String) (lfile sfile : FileEntry)
    (hwf : WF s) (hs : s.shared = some store)
    (hl : lookupA s.local_folder f = some lfile)
    (hu : lookupA ((lookupA store s.username).getD []) f = some sfile)
    (hletter : is_letter_file f = true)
    (hdiff : lfile.content ≠ sfile.content) :
    (sfile.mtime > lfile.mtime →
      lookupA (bidirectional_sync now s).state.local_folder f = some sfile ∧
      lookupA ((lookupA ((bidirectional_sync now s).state.shared.getD [])
        s.username).getD []) f = some sfile ∧
      lookupA (bidirectional_sync now s).state.local_folder (f ++ ".local_backup") =
        some lfile) ∧
    (¬ sfile.mtime > lfile.mtime →
      needs_sync s.last_sync_times f lfile (some sfile) = false →
      lookupA (bidirectional_sync now s).state.local_folder f = some lfile ∧
      lookupA ((lookupA ((bidirectional_sync now s).state.shared.getD [])
        s.username).getD []) f = some lfile ∧
      lookupA ((lookupA ((bidirectional_sync now s).state.shared.getD [])
        s.username).getD []) (f ++ ".shared_backup") = some sfile) := by
  have hlnd : (s.local_folder.map Prod.fst).Nodup := hwf.1.1
  have hslashf : '/' ∉ f.data := hwf.1.2 (f, lfile) (lookupA_mem hl)
  have hsnd : (store.map Prod.fst).Nodup := by
    have := hwf.2.1
    rw [hs] at this
    exact this
  have hswf : ∀ p ∈ store, WFfolder p.2 := by
    have := hwf.2.2
    rw [hs] at this
    exact this
  have huf0 : (lookupA (ensure_user store s.username) s.username).getD [] =
      (lookupA store s.username).getD [] := by
    rw [ensure_user_self]
    rfl
  have huf0nd : (((lookupA store s.username).getD []).map Prod.fst).Nodup := by
    cases hq : lookupA store s.username with
    | none => simp
    | some F => simpa using (hswf (s.username, F) (lookupA_mem hq)).1
  rw [bidirectional_sync.eq_def, hs]
  simp only [sync_local_to_shared, sync_shared_to_local,
    detect_and_resolve_conflicts, Option.getD_some, huf0]
  set P1 := sync_local_to_shared_go now s.local_folder
    ((lookupA store s.username).getD []) s.last_sync_times 0 with hP1def
  set ST2 := updateA (ensure_user store s.username) s.username P1.1 with hST2def
  set P2 := sync_shared_to_local_users now s.username ST2
    ⟨s.local_folder, s.community, P1.2.1, 0⟩ with hP2def
  have hp1nd : ((P1.1).map Prod.fst).Nodup := p1_nodup now s.local_folder
    ((lookupA store s.username).getD []) s.last_sync_times 0 huf0nd
  have hst2nd : (ST2.map Prod.fst).Nodup :=
    nodup_updateA _ _ (ensure_user_nodup store s.username hsnd)
  have hst2mem : (s.username, P1.1) ∈ ST2 := lookupA_mem (lookupA_updateA_self ..)
  have hp2nd : ((P2.local_folder).map Prod.fst).Nodup :=
    pu_nodup_local now s.username ST2 ⟨s.local_folder, s.community, P1.2.1, 0⟩ hlnd
  refine ⟨fun hm => ?_, fun hm hns => ?_⟩
  · have hdecF : needs_sync s.last_sync_times f lfile
        (lookupA ((lookupA store s.username).getD []) f) = false := by
      rw [hu]
      exact needs_sync_false_of_le _ _ _ _ (Nat.le_of_lt hm)
    have hp1 := (p1_point now s.local_folder ((lookupA store s.username).getD [])
      s.last_sync_times 0 f lfile hlnd (lookupA_mem hl) hletter).2 hdecF
    have hp1f : lookupA P1.1 f = some sfile := by
      rw [hP1def, hp1.1, hu]
    have hp2 := ((pu_own_point now s.username ST2
      ⟨s.local_folder, s.community, P1.2.1, 0⟩ P1.1 f sfile
      hst2nd hst2mem hp1nd (lookupA_mem hp1f) hletter hslashf).2 lfile hl).1
      ⟨(get_file_hash_ne_iff ..).mpr (fun h => hdiff h.symm), hm⟩
    rcases hp2 with ⟨hp2f, hp2b, hp2led⟩
    have hp3 := ((p3_point now P2.local_folder
      ⟨P2.local_folder, P1.1, P2.ledger, 0⟩ f sfile
      hp2nd (lookupA_mem hp2f) hletter).2 sfile hp1f).1 rfl
    have hp3b := p3_skip_backup now P2.local_folder
      ⟨P2.local_folder, P1.1, P2.ledger, 0⟩ f sfile sfile
      hp2nd (lookupA_mem hp2f) hletter hp1f rfl
    refine ⟨?_, ?_, ?_⟩
    · rw [hp3.1]
      exact hp2f
    · rw [lookupA_updateA_self]
      simp only [Option.getD_some]
      exact hp3.2.1
    · rw [hp3b]
      exact hp2b
  · have hdecF : needs_sync s.last_sync_times f lfile
        (lookupA ((lookupA store s.username).getD []) f) = false := by
      rw [hu]
      exact hns
    have hp1 := (p1_point now s.local_folder ((lookupA store s.username).getD [])
      s.last_sync_times 0 f lfile hlnd (lookupA_mem hl) hletter).2 hdecF
    have hp1f : lookupA P1.1 f = some sfile := by
      rw [hP1def, hp1.1, hu]
    have hp2 := ((pu_own_point now s.username ST2
      ⟨s.local_folder, s.community, P1.2.1, 0⟩ P1.1 f sfile
      hst2nd hst2mem hp1nd (lookupA_mem hp1f) hletter hslashf).2 lfile hl).2
      (fun hc => hm hc.2)
    rcases hp2 with ⟨hp2f, hp2led⟩
    have hp3 := (((p3_point now P2.local_folder
      ⟨P2.local_folder, P1.1, P2.ledger, 0⟩ f lfile
      hp2nd (lookupA_mem hp2f) hletter).2 sfile hp1f).2 hdiff).2 hm
    refine ⟨?_, ?_, ?_⟩
    · rw [hp3.1]
      exact hp2f
    · rw [lookupA_updateA_self]
      simp only [Option.getD_some]
      exact hp3.2.1
    · rw [lookupA_updateA_self]
      simp only [Option.getD_some]
      exact hp3.2.2.1

/-- Witness for C4 at a concrete conflicting pair (shared newer). -/
theorem no_data_loss_on_conflict_witness :
    lookupA (bidirectional_sync 1000
      ⟨"me", [("nova_letter_20250605.md", ⟨"A", 100⟩)],
        some [("me", [("nova_letter_20250605.md", ⟨"B", 105⟩)])], [],
        []⟩).state.local_folder "nova_letter_20250605.md" = some ⟨"B", 105⟩ ∧
    lookupA ((lookupA ((bidirectional_sync 1000
      ⟨"me", [("nova_letter_20250605.md", ⟨"A", 100⟩)],
        some [("me", [("nova_letter_20250605.md", ⟨"B", 105⟩)])], [],
        []⟩).state.shared.getD []) "me").getD []) "nova_letter_20250605.md" =
      some ⟨"B", 105⟩ ∧
    lookupA (bidirectional_sync 1000
      ⟨"me", [("nova_letter_20250605.md", ⟨"A", 100⟩)],
        some [("me", [("nova_letter_20250605.md", ⟨"B", 105⟩)])], [],
        []⟩).state.local_folder ("nova_letter_20250605.md" ++ ".local_backup") =
      some ⟨"A", 100⟩ :=
  (no_data_loss_on_conflict 1000
    ⟨"me", [("nova_letter_20250605.md", ⟨"A", 100⟩)],
      some [("me", [("nova_letter_20250605.md", ⟨"B", 105⟩)])], [], []⟩
    [("me", [("nova_letter_20250605.md", ⟨"B", 105⟩)])]
    "nova_letter_20250605.md" ⟨"A", 100⟩ ⟨"B", 105⟩
    (by decide) rfl (by decide) (by decide) (by decide) (by decide)).1 (by decide)

/-! ### Support for idempotence -/

theorem needs_sync_false_of_ledger (L : Ledger) (fn : String) (src d : FileEntry)
    (t : Nat) (h1 : lookupA L fn = some t) (h2 : src.mtime ≤ t) :
    needs_sync L fn src (some d) = false := by
  simp only [needs_sync, h1, Bool.and_eq_false_imp, decide_eq_true_eq,
    decide_eq_false_iff_not]
  omega

theorem needs_sync_false_cases (L : Ledger) (fn : String) (src d : FileEntry)
    (h : needs_sync L fn src (some d) = false) :
    src.mtime ≤ d.mtime ∨ ∃ t, lookupA L fn = some t ∧ src.mtime ≤ t := by
  cases hq : lookupA L fn with
  | none =>
    simp only [needs_sync, hq, decide_eq_false_iff_not] at h
    left
    omega
  | some t =>
    simp only [needs_sync, hq, Bool.and_eq_false_iff, decide_eq_false_iff_not] at h
    rcases h with h | h
    · right
      exact ⟨t, rfl, by omega⟩
    · left
      omega

theorem mem_updateA_self_nodup {α : Type} {l : List (String × α)} {k : String}
    {v v' : α} (hnd : (l.map Prod.fst).Nodup) (h : (k, v') ∈ updateA l k v) :
    v' = v := by
  induction l with
  | nil =>
    simp [updateA] at h
    exact h
  | cons p rest ih =>
    obtain ⟨a, b⟩ := p
    rw [List.map_cons] at hnd
    have hnd1 := (List.nodup_cons.mp hnd).1
    have hnd2 := (List.nodup_cons.mp hnd).2
    by_cases ha : a = k
    · subst ha
      rw [updateA, if_pos rfl] at h
      rcases List.mem_cons.mp h with h' | h'
      · exact congrArg Prod.snd h'
      · exact absurd (List.mem_map.mpr ⟨(a, v'), h', rfl⟩) hnd1
    · rw [updateA, if_neg ha] at h
      rcases List.mem_cons.mp h with h' | h'
      · exact absurd (congrArg Prod.fst h') (fun hh => ha hh.symm)
      · exact ih hnd2 h'

theorem rce_nodup_uf (now : Nat) (f : String) (lfile : FileEntry) (st : P3State)
    (h : (st.user_folder.map Prod.fst).Nodup) :
    (((resolve_conflict_entry now f lfile st).user_folder).map Prod.fst).Nodup := by
  cases hU : lookupA st.user_folder f with
  | none =>
    rw [rce_none now f lfile st hU]
    exact h
  | some sfile =>
    rw [rce_some now f lfile sfile st hU]
    by_cases hd : get_file_hash (some lfile) ≠ get_file_hash (some sfile)
    · rw [if_pos hd]
      by_cases hm : sfile.mtime > lfile.mtime
      · rw [if_pos hm]
        exact h
      · rw [if_neg hm]
        exact nodup_updateA _ _ (nodup_updateA _ _ h)
    · rw [if_neg hd]
      exact h

theorem p3_nodup_uf (now : Nat) (entries : List (String × FileEntry)) (st : P3State)
    (h : (st.user_folder.map Prod.fst).Nodup) :
    (((detect_and_resolve_conflicts_go now entries st).user_folder).map Prod.fst).Nodup := by
  induction entries generalizing st with
  | nil => exact h
  | cons e rest ih =>
    obtain ⟨g, gfile⟩ := e
    by_cases hg : is_letter_file g
    · rw [detect_and_resolve_conflicts_go, if_pos hg]
      exact ih _ (rce_nodup_uf now g gfile st h)
    · rw [detect_and_resolve_conflicts_go, if_neg hg]
      exact ih _ h


theorem rce_nodup_local (now : Nat) (f : String) (lfile : FileEntry) (st : P3State)
    (h : (st.local_folder.map Prod.fst).Nodup) :
    (((resolve_conflict_entry now f lfile st).local_folder).map Prod.fst).Nodup := by
  cases hU : lookupA st.user_folder f with
  | none =>
    rw [rce_none now f lfile st hU]
    exact h
  | some sfile =>
    rw [rce_some now f lfile sfile st hU]
    by_cases hd : get_file_hash (some lfile) ≠ get_file_hash (some sfile)
    · rw [if_pos hd]
      by_cases hm : sfile.mtime > lfile.mtime
      · rw [if_pos hm]
        exact nodup_updateA _ _ (nodup_updateA _ _ h)
      · rw [if_neg hm]
        exact h
    · rw [if_neg hd]
      exact h

theorem p3_nodup_local (now : Nat) (entries : List (String × FileEntry)) (st : P3State)
    (h : (st.local_folder.map Prod.fst).Nodup) :
    (((detect_and_resolve_conflicts_go now entries st).local_folder).map Prod.fst).Nodup := by
  induction entries generalizing st with
  | nil => exact h
  | cons e rest ih =>
    obtain ⟨g, gfile⟩ := e
    by_cases hg : is_letter_file g
    · rw [detect_and_resolve_conflicts_go, if_pos hg]
      exact ih _ (rce_nodup_local now g gfile st h)
    · rw [detect_and_resolve_conflicts_go, if_neg hg]
      exact ih _ h

theorem run_pointwise (now : Nat) (s : SyncState) (store : List (String × Folder))
    (hwf : WF s) (hs : s.shared = some store) (g : String)
    (hletter : is_letter_file g = true) :
    (∀ gl, lookupA (bidirectional_sync now s).state.local_folder g = some gl →
      (∀ sf, lookupA ((lookupA ((bidirectional_sync now s).state.shared.getD [])
          s.username).getD []) g = some sf → gl.content = sf.content) ∧
      needs_sync (bidirectional_sync now s).state.last_sync_times g gl
        (lookupA ((lookupA ((bidirectional_sync now s).state.shared.getD [])
          s.username).getD []) g) = false) ∧
    (∀ gf, lookupA ((lookupA ((bidirectional_sync now s).state.shared.getD [])
        s.username).getD []) g = some gf →
      ∃ gl, lookupA (bidirectional_sync now s).state.local_folder g = some gl) := by
  have hlnd : (s.local_folder.map Prod.fst).Nodup := hwf.1.1
  have hsnd : (store.map Prod.fst).Nodup := by
    have := hwf.2.1
    rw [hs] at this
    exact this
  have hswf : ∀ p ∈ store, WFfolder p.2 := by
    have := hwf.2.2
    rw [hs] at this
    exact this
  have huf0 : (lookupA (ensure_user store s.username) s.username).getD [] =
      (lookupA store s.username).getD [] := by
    rw [ensure_user_self]
    rfl
  have huf0nd : (((lookupA store s.username).getD []).map Prod.fst).Nodup := by
    cases hq : lookupA store s.username with
    | none => simp
    | some F => simpa using (hswf (s.username, F) (lookupA_mem hq)).1
  rw [bidirectional_sync.eq_def, hs]
  simp only [sync_local_to_shared, sync_shared_to_local,
    detect_and_resolve_conflicts, Option.getD_some, huf0]
  set P1 := sync_local_to_shared_go now s.local_folder
    ((lookupA store s.username).getD []) s.last_sync_times 0 with hP1def
  set ST2 := updateA (ensure_user store s.username) s.username P1.1 with hST2def
  set P2 := sync_shared_to_local_users now s.username ST2
    ⟨s.local_folder, s.community, P1.2.1, 0⟩ with hP2def
  rw [lookupA_updateA_self]
  simp only [Option.getD_some]
  have hp1nd : ((P1.1).map Prod.fst).Nodup := p1_nodup now s.local_folder
    ((lookupA store s.username).getD []) s.last_sync_times 0 huf0nd
  have hst2nd : (ST2.map Prod.fst).Nodup :=
    nodup_updateA _ _ (ensure_user_nodup store s.username hsnd)
  have hst2mem : (s.username, P1.1) ∈ ST2 := lookupA_mem (lookupA_updateA_self ..)
  have hp2nd : ((P2.local_folder).map Prod.fst).Nodup :=
    pu_nodup_local now s.username ST2 ⟨s.local_folder, s.community, P1.2.1, 0⟩ hlnd
  cases hL0 : lookupA s.local_folder g with
  | some lf₀ =>
    have hslash : '/' ∉ g.data := hwf.1.2 (g, lf₀) (lookupA_mem hL0)
    by_cases hd1 : needs_sync s.last_sync_times g lf₀
        (lookupA ((lookupA store s.username).getD []) g) = true
    · -- pushed in phase 1: both replicas end as the local file
      have hp1 := (p1_point now s.local_folder ((lookupA store s.username).getD [])
        s.last_sync_times 0 g lf₀ hlnd (lookupA_mem hL0) hletter).1 hd1
      have hp2 := ((pu_own_point now s.username ST2
        ⟨s.local_folder, s.community, P1.2.1, 0⟩ P1.1 g lf₀
        hst2nd hst2mem hp1nd (lookupA_mem hp1.1) hletter hslash).2 lf₀ hL0).2
        (fun hc => hc.1 rfl)
      have hp2led : lookupA P2.ledger g = some now := hp2.2.trans hp1.2
      have hp3 := ((p3_point now P2.local_folder
        ⟨P2.local_folder, P1.1, P2.ledger, 0⟩ g lf₀
        hp2nd (lookupA_mem hp2.1) hletter).2 lf₀ hp1.1).1 rfl
      have hfl := hp3.1.trans hp2.1
      have hfu := hp3.2.1
      have hft := hp3.2.2.trans hp2led
      refine ⟨fun gl hgl => ?_, fun gf hgf => ⟨lf₀, hfl⟩⟩
      rw [hfl] at hgl
      obtain rfl : lf₀ = gl := Option.some.inj hgl
      refine ⟨fun sf hsf => ?_, ?_⟩
      · rw [hfu] at hsf
        obtain rfl : lf₀ = sf := Option.some.inj hsf
        rfl
      · rw [hfu]
        exact needs_sync_false_of_le _ _ _ _ (Nat.le_refl _)
    · simp only [Bool.not_eq_true] at hd1
      cases hU0 : lookupA ((lookupA store s.username).getD []) g with
      | none =>
        rw [hU0] at hd1
        simp [needs_sync] at hd1
      | some sf₀ =>
        have hp1 := (p1_point now s.local_folder ((lookupA store s.username).getD [])
          s.last_sync_times 0 g lf₀ hlnd (lookupA_mem hL0) hletter).2 hd1
        have hp1g : lookupA P1.1 g = some sf₀ := by
          rw [hP1def, hp1.1, hU0]
        have hp1led : lookupA P1.2.1 g = lookupA s.last_sync_times g := by
          rw [hP1def, hp1.2]
        by_cases hc2 : get_file_hash (some sf₀) ≠ get_file_hash (some lf₀) ∧
            sf₀.mtime > lf₀.mtime
        · -- pulled in phase 2: both replicas end as the shared file
          have hp2 := ((pu_own_point now s.username ST2
            ⟨s.local_folder, s.community, P1.2.1, 0⟩ P1.1 g sf₀
            hst2nd hst2mem hp1nd (lookupA_mem hp1g) hletter hslash).2 lf₀ hL0).1 hc2
          have hp3 := ((p3_point now P2.local_folder
            ⟨P2.local_folder, P1.1, P2.ledger, 0⟩ g sf₀
            hp2nd (lookupA_mem hp2.1) hletter).2 sf₀ hp1g).1 rfl
          have hfl := hp3.1.trans hp2.1
          have hfu := hp3.2.1
          refine ⟨fun gl hgl => ?_, fun gf hgf => ⟨sf₀, hfl⟩⟩
          rw [hfl] at hgl
          obtain rfl : sf₀ = gl := Option.some.inj hgl
          refine ⟨fun sf hsf => ?_, ?_⟩
          · rw [hfu] at hsf
            obtain rfl : sf₀ = sf := Option.some.inj hsf
            rfl
          · rw [hfu]
            exact needs_sync_false_of_le _ _ _ _ (Nat.le_refl _)
        · have hp2 := ((pu_own_point now s.username ST2
            ⟨s.local_folder, s.community, P1.2.1, 0⟩ P1.1 g sf₀
            hst2nd hst2mem hp1nd (lookupA_mem hp1g) hletter hslash).2 lf₀ hL0).2 hc2
          have hp2led : lookupA P2.ledger g = lookupA s.last_sync_times g :=
            hp2.2.trans hp1led
          by_cases hceq : lf₀.content = sf₀.content
          · -- contents already agree: nothing moves, the old block remains
            have hp3 := ((p3_point now P2.local_folder
              ⟨P2.local_folder, P1.1, P2.ledger, 0⟩ g lf₀
              hp2nd (lookupA_mem hp2.1) hletter).2 sf₀ hp1g).1 hceq
            have hfl := hp3.1.trans hp2.1
            have hfu := hp3.2.1
            have hft := hp3.2.2.trans hp2led
            refine ⟨fun gl hgl => ?_, fun gf hgf => ⟨lf₀, hfl⟩⟩
            rw [hfl] at hgl
            obtain rfl : lf₀ = gl := Option.some.inj hgl
            refine ⟨fun sf hsf => ?_, ?_⟩
            · rw [hfu] at hsf
              obtain rfl : sf₀ = sf := Option.some.inj hsf
              exact hceq
            · rw [hfu]
              rw [needs_sync_congr _ _ _ _ _ hft]
              rw [hU0] at hd1
              exact hd1
          · -- conflict phase resolves in favor of the local file
            have hm2 : ¬ sf₀.mtime > lf₀.mtime := fun hm =>
              hc2 ⟨(get_file_hash_ne_iff ..).mpr (fun h => hceq h.symm), hm⟩
            have hp3 := (((p3_point now P2.local_folder
              ⟨P2.local_folder, P1.1, P2.ledger, 0⟩ g lf₀
              hp2nd (lookupA_mem hp2.1) hletter).2 sf₀ hp1g).2 hceq).2 hm2
            have hfl := hp3.1.trans hp2.1
            have hfu := hp3.2.1
            refine ⟨fun gl hgl => ?_, fun gf hgf => ⟨lf₀, hfl⟩⟩
            rw [hfl] at hgl
            obtain rfl : lf₀ = gl := Option.some.inj hgl
            refine ⟨fun sf hsf => ?_, ?_⟩
            · rw [hfu] at hsf
              obtain rfl : lf₀ = sf := Option.some.inj hsf
              rfl
            · rw [hfu]
              exact needs_sync_false_of_le _ _ _ _ (Nat.le_refl _)
  | none =>
    have hnotmem : ∀ e ∈ s.local_folder, is_letter_file e.1 = true → e.1 ≠ g := by
      intro e he _ heq
      have hk : g ∈ s.local_folder.map Prod.fst := by
        rw [← heq]
        exact List.mem_map.mpr ⟨e, he, rfl⟩
      rcases mem_keys_lookupA hk with ⟨v, hv⟩
      rw [hv] at hL0
      exact Option.noConfusion hL0
    have hp1fr := p1_frame now s.local_folder ((lookupA store s.username).getD [])
      s.last_sync_times 0 g hnotmem
    cases hU0 : lookupA ((lookupA store s.username).getD []) g with
    | some sf₀ =>
      -- the shared file is copied down in phase 2
      have hmemuf : (g, sf₀) ∈ (lookupA store s.username).getD [] := lookupA_mem hU0
      have hslash : '/' ∉ g.data := by
        cases hq : lookupA store s.username with
        | none =>
          rw [hq] at hmemuf
          simp at hmemuf
        | some F =>
          rw [hq] at hmemuf
          exact (hswf (s.username, F) (lookupA_mem hq)).2 (g, sf₀) hmemuf
      have hp1g : lookupA P1.1 g = some sf₀ := by
        rw [hP1def, hp1fr.1, hU0]
      have hp2 := (pu_own_point now s.username ST2
        ⟨s.local_folder, s.community, P1.2.1, 0⟩ P1.1 g sf₀
        hst2nd hst2mem hp1nd (lookupA_mem hp1g) hletter hslash).1 hL0
      have hp3 := ((p3_point now P2.local_folder
        ⟨P2.local_folder, P1.1, P2.ledger, 0⟩ g sf₀
        hp2nd (lookupA_mem hp2.1) hletter).2 sf₀ hp1g).1 rfl
      have hfl := hp3.1.trans hp2.1
      have hfu := hp3.2.1
      refine ⟨fun gl hgl => ?_, fun gf hgf => ⟨sf₀, hfl⟩⟩
      rw [hfl] at hgl
      obtain rfl : sf₀ = gl := Option.some.inj hgl
      refine ⟨fun sf hsf => ?_, ?_⟩
      · rw [hfu] at hsf
        obtain rfl : sf₀ = sf := Option.some.inj hsf
        rfl
      · rw [hfu]
        exact needs_sync_false_of_le _ _ _ _ (Nat.le_refl _)
    | none =>
      -- the letter exists on neither side: nothing ever touches it
      have hp1g : lookupA P1.1 g = none := by
        rw [hP1def, hp1fr.1, hU0]
      have hnotp1 : ∀ e ∈ P1.1, is_letter_file e.1 = true → g ≠ e.1 := by
        intro e he _ heq
        rcases mem_keys_lookupA (List.mem_map.mpr ⟨e, he, rfl⟩) with ⟨v, hv⟩
        rw [← heq] at hv
        rw [hv] at hp1g
        exact Option.noConfusion hp1g
      have hp2fr : lookupA P2.local_folder g = none := by
        rw [hP2def, pu_local_frame]
        · exact hL0
        · intro p hp hpu e he hel
          have hpP1 : p.2 = P1.1 := by
            obtain ⟨pk, pv⟩ := p
            simp only at hpu
            subst hpu
            exact mem_updateA_self_nodup (ensure_user_nodup store s.username hsnd) hp
          rw [hpP1] at he
          exact ⟨fun heq => hnotp1 e he hel heq, letter_ne_local_backup hletter e.1⟩
      have hnotp2 : ∀ e ∈ P2.local_folder, is_letter_file e.1 = true → g ≠ e.1 := by
        intro e he _ heq
        rcases mem_keys_lookupA (List.mem_map.mpr ⟨e, he, rfl⟩) with ⟨v, hv⟩
        rw [← heq] at hv
        rw [hv] at hp2fr
        exact Option.noConfusion hp2fr
      have hfl : lookupA (detect_and_resolve_conflicts_go now P2.local_folder
          ⟨P2.local_folder, P1.1, P2.ledger, 0⟩).local_folder g = none := by
        rw [p3_frame_local]
        · exact hp2fr
        · intro e he hel
          exact ⟨fun heq => hnotp2 e he hel heq,
            letter_ne_local_backup hletter e.1⟩
      have hfu : lookupA (detect_and_resolve_conflicts_go now P2.local_folder
          ⟨P2.local_folder, P1.1, P2.ledger, 0⟩).user_folder g = none := by
        rw [p3_frame_uf]
        · exact hp1g
        · intro e he hel
          exact ⟨fun heq => hnotp2 e he hel heq,
            letter_ne_shared_backup hletter e.1⟩
      refine ⟨fun gl hgl => ?_, fun gf hgf => ?_⟩
      · rw [hfl] at hgl
        exact Option.noConfusion hgl
      · rw [hfu] at hgf
        exact Option.noConfusion hgf

theorem quiet_run_noop (now : Nat) (s : SyncState) (hq : Quiet s) :
    bidirectional_sync now s = ⟨s, 0, 0, 0, false⟩ := by
  cases hs : s.shared with
  | none => rw [bidirectional_sync.eq_def, hs]
  | some store =>
    obtain ⟨uf, huf, hA1, hOwn, hFor, hA3⟩ := hq store hs
    rw [bidirectional_sync.eq_def, hs]
    simp only [sync_local_to_shared, sync_shared_to_local,
      detect_and_resolve_conflicts]
    rw [ensure_user_id store s.username uf huf, huf]
    simp only [Option.getD_some,
      p1_zero now s.local_folder uf s.last_sync_times 0 hA1,
      updateA_lookupA_eq store s.username uf huf,
      pu_zero now s.username store
        ⟨s.local_folder, s.community, s.last_sync_times, 0⟩ hOwn hFor,
      p3_zero now s.local_folder ⟨s.local_folder, uf, s.last_sync_times, 0⟩ hA3]
    rw [← hs]
    rfl

theorem run_establishes_quiet (now₁ : Nat) (s : SyncState) (hwf : WF s)
    (hled : ∀ p ∈ s.last_sync_times, p.2 ≤ now₁) :
    Quiet (bidirectional_sync now₁ s).state := by
  cases hs : s.shared with
  | none =>
    have hstate : (bidirectional_sync now₁ s).state = s := by
      rw [bidirectional_sync.eq_def, hs]
    intro store' hstore'
    rw [hstate, hs] at hstore'
    exact Option.noConfusion hstore'
  | some store =>
    have hlnd : (s.local_folder.map Prod.fst).Nodup := hwf.1.1
    have hsnd : (store.map Prod.fst).Nodup := by
      have := hwf.2.1
      rw [hs] at this
      exact this
    have hswf : ∀ p ∈ store, WFfolder p.2 := by
      have := hwf.2.2
      rw [hs] at this
      exact this
    have huf0nd : (((lookupA (ensure_user store s.username) s.username).getD []).map
        Prod.fst).Nodup := by
      rw [ensure_user_self]
      cases hq : lookupA store s.username with
      | none => simp
      | some F => simpa using (hswf (s.username, F) (lookupA_mem hq)).1
    set P1 := sync_local_to_shared_go now₁ s.local_folder
      ((lookupA (ensure_user store s.username) s.username).getD [])
      s.last_sync_times 0 with hP1def
    set ST2 := updateA (ensure_user store s.username) s.username P1.1 with hST2def
    set P2 := sync_shared_to_local_users now₁ s.username ST2
      ⟨s.local_folder, s.community, P1.2.1, 0⟩ with hP2def
    set P3 := detect_and_resolve_conflicts_go now₁ P2.local_folder
      ⟨P2.local_folder, P1.1, P2.ledger, 0⟩ with hP3def
    have hst2nd : (ST2.map Prod.fst).Nodup :=
      nodup_updateA _ _ (ensure_user_nodup store s.username hsnd)
    have hp1nd : ((P1.1).map Prod.fst).Nodup :=
      p1_nodup now₁ s.local_folder _ s.last_sync_times 0 huf0nd
    have hp2nd : ((P2.local_folder).map Prod.fst).Nodup :=
      pu_nodup_local now₁ s.username ST2 ⟨s.local_folder, s.community, P1.2.1, 0⟩ hlnd
    have hp3ndL : ((P3.local_folder).map Prod.fst).Nodup :=
      p3_nodup_local now₁ P2.local_folder ⟨P2.local_folder, P1.1, P2.ledger, 0⟩ hp2nd
    have hp3ndU : ((P3.user_folder).map Prod.fst).Nodup :=
      p3_nodup_uf now₁ P2.local_folder ⟨P2.local_folder, P1.1, P2.ledger, 0⟩ hp1nd
    have hsh : (bidirectional_sync now₁ s).state.shared =
        some (updateA ST2 s.username P3.user_folder) := by
      rw [bidirectional_sync.eq_def, hs]
      rfl
    have hun : (bidirectional_sync now₁ s).state.username = s.username := by
      rw [bidirectional_sync.eq_def, hs]
    have hlf : (bidirectional_sync now₁ s).state.local_folder = P3.local_folder := by
      rw [bidirectional_sync.eq_def, hs]
      rfl
    have hlt : (bidirectional_sync now₁ s).state.last_sync_times = P3.ledger := by
      rw [bidirectional_sync.eq_def, hs]
      rfl
    have hcm : (bidirectional_sync now₁ s).state.community = P2.community := by
      rw [bidirectional_sync.eq_def, hs]
      rfl
    have hufinal : ∀ g : String, lookupA ((lookupA
        ((bidirectional_sync now₁ s).state.shared.getD []) s.username).getD []) g =
          lookupA P3.user_folder g := by
      intro g
      rw [hsh]
      simp only [Option.getD_some, lookupA_updateA_self]
    intro store' hstore'
    rw [hsh] at hstore'
    obtain rfl := Option.some.inj hstore'
    rw [hun, hlf, hlt, hcm]
    refine ⟨P3.user_folder, lookupA_updateA_self .., ?_, ?_, ?_, ?_⟩
    · -- no local letter still needs a push
      intro e he hel
      obtain ⟨k, v⟩ := e
      have hrp := run_pointwise now₁ s store hwf hs k hel
      rw [hlf, hlt, hufinal k] at hrp
      exact (hrp.1 v (mem_lookupA he hp3ndL)).2
    · -- no shared own letter beats its local counterpart
      intro p hp hpu e he hel
      obtain ⟨pk, pv⟩ := p
      obtain ⟨k, v⟩ := e
      have hpk : pk = s.username := hpu
      subst hpk
      have hpv : pv = P3.user_folder := mem_updateA_self_nodup hst2nd hp
      have he' : (k, v) ∈ P3.user_folder := by
        rw [← hpv]
        exact he
      have hku : lookupA P3.user_folder k = some v := mem_lookupA he' hp3ndU
      have hrp := run_pointwise now₁ s store hwf hs k hel
      rw [hlf, hlt, hufinal k] at hrp
      obtain ⟨gl, hgl⟩ := hrp.2 v hku
      have hc : gl.content = v.content := (hrp.1 gl hgl).1 v hku
      refine ⟨gl, hgl, fun hcon => ?_⟩
      exact absurd hc.symm ((get_file_hash_ne_iff v gl).mp hcon.1)
    · -- no foreign shared letter still needs a pull into the mirror
      intro p hp hpu e he hel
      obtain ⟨u₀, fold⟩ := p
      obtain ⟨k, gf⟩ := e
      dsimp only at hpu hel ⊢
      have hst2mem : (u₀, fold) ∈ ST2 := by
        rcases mem_updateA hp with h | h
        · exact absurd (congrArg Prod.fst h) hpu
        · exact h
      have hstm : (u₀, fold) ∈ store := by
        rcases mem_updateA hst2mem with h | h
        · exact absurd (congrArg Prod.fst h) hpu
        · rcases mem_ensure_user h with h' | h'
          · exact h'
          · exact absurd (congrArg Prod.fst h') hpu
      have hfnd : (fold.map Prod.fst).Nodup := (hswf (u₀, fold) hstm).1
      rcases pu_foreign_point now₁ s.username ST2
        ⟨s.local_folder, s.community, P1.2.1, 0⟩ u₀ fold k gf
        hst2nd hst2mem hpu hfnd he hel with ⟨Lmid, he1, he2, hfire, hskip⟩
      have he1' : LedgerEvol now₁ P1.2.1 Lmid := he1
      have he2' : LedgerEvol now₁ Lmid P2.ledger := he2
      have hfire' : needs_sync Lmid k gf
          (lookupA ((lookupA s.community u₀).getD []) k) = true →
          lookupA ((lookupA P2.community u₀).getD []) k = some gf := hfire
      have hskip' : needs_sync Lmid k gf
          (lookupA ((lookupA s.community u₀).getD []) k) = false →
          lookupA ((lookupA P2.community u₀).getD []) k =
            lookupA ((lookupA s.community u₀).getD []) k := hskip
      have hev1 : LedgerEvol now₁ s.last_sync_times P1.2.1 :=
        p1_evol now₁ s.local_folder
          ((lookupA (ensure_user store s.username) s.username).getD [])
          s.last_sync_times 0
      have hevP3 : LedgerEvol now₁ P2.ledger P3.ledger :=
        p3_evol now₁ P2.local_folder ⟨P2.local_folder, P1.1, P2.ledger, 0⟩
      have hchain1 : LedgerEvol now₁ s.last_sync_times Lmid :=
        ledgerEvol_trans hev1 he1'
      have hchain2 : LedgerEvol now₁ Lmid P3.ledger :=
        ledgerEvol_trans he2' hevP3
      by_cases hns : needs_sync Lmid k gf
          (lookupA ((lookupA s.community u₀).getD []) k) = true
      · rw [hfire' hns]
        exact needs_sync_false_of_le _ _ _ _ (Nat.le_refl _)
      · simp only [Bool.not_eq_true] at hns
        rw [hskip' hns]
        cases hd : lookupA ((lookupA s.community u₀).getD []) k with
        | none =>
          rw [hd] at hns
          simp [needs_sync] at hns
        | some d =>
          rw [hd] at hns
          rcases needs_sync_false_cases Lmid k gf d hns with hle | ⟨t, hlu, hle⟩
          · exact needs_sync_false_of_le _ _ _ _ hle
          · rcases (hchain2 k).1 with h | h
            · exact needs_sync_false_of_ledger _ _ _ _ t (h.trans hlu) hle
            · exact needs_sync_false_of_ledger _ _ _ _ now₁ h
                (Nat.le_trans hle (ledgerEvol_bound hled hchain1 hlu))
    · -- local and shared own replicas agree in content
      intro e he hel sf hsf
      obtain ⟨k, v⟩ := e
      have hrp := run_pointwise now₁ s store hwf hs k hel
      rw [hlf, hlt, hufinal k] at hrp
      exact (hrp.1 v (mem_lookupA he hp3ndL)).1 sf hsf

/-- **C3.** The full sync pass is idempotent.  Starting from any well-formed
filesystem state whose ledger records were all written at or before the
first run's clock reading `now₁` (both hold of every state a real system
can be in), running `bidirectional_sync` once and then immediately again,
at an arbitrary second clock reading `now₂`, makes the second run report
zero pushes, zero pulls and zero conflict resolutions, return `false`, and
leave the state produced by the first run entirely unchanged. -/
theorem bidirectional_sync_idempotent (now₁ now₂ : Nat) (s : SyncState)
    (hwf : WF s) (hled : ∀ p ∈ s.last_sync_times, p.2 ≤ now₁) :
    bidirectional_sync now₂ (bidirectional_sync now₁ s).state =
      ⟨(bidirectional_sync now₁ s).state, 0, 0, 0, false⟩ :=
  quiet_run_noop now₂ _ (run_establishes_quiet now₁ s hwf hled)

/-- Concrete instance of the idempotence theorem: a state with a fresh local
letter to push, a stale shared letter guarded by the ledger, and a foreign
letter to mirror satisfies both hypotheses, and the second run is a no-op. -/
theorem bidirectional_sync_idempotent_witness :
    WF ⟨"alice", [("nova_letter_a.md", ⟨"hi", 5⟩)],
      some [("alice", [("nova_letter_old.md", ⟨"x", 1⟩)]),
        ("bob", [("nova_letter_b.md", ⟨"y", 7⟩)])],
      [], [("nova_letter_old.md", 3)]⟩ ∧
    (∀ p ∈ [("nova_letter_old.md", 3)], p.2 ≤ 10) ∧
    bidirectional_sync 11 (bidirectional_sync 10
      ⟨"alice", [("nova_letter_a.md", ⟨"hi", 5⟩)],
        some [("alice", [("nova_letter_old.md", ⟨"x", 1⟩)]),
          ("bob", [("nova_letter_b.md", ⟨"y", 7⟩)])],
        [], [("nova_letter_old.md", 3)]⟩).state =
      ⟨(bidirectional_sync 10
        ⟨"alice", [("nova_letter_a.md", ⟨"hi", 5⟩)],
          some [("alice", [("nova_letter_old.md", ⟨"x", 1⟩)]),
            ("bob", [("nova_letter_b.md", ⟨"y", 7⟩)])],
          [], [("nova_letter_old.md", 3)]⟩).state, 0, 0, 0, false⟩ :=
  ⟨by decide, by decide,
    bidirectional_sync_idempotent 10 11
      ⟨"alice", [("nova_letter_a.md", ⟨"hi", 5⟩)],
        some [("alice", [("nova_letter_old.md", ⟨"x", 1⟩)]),
          ("bob", [("nova_letter_b.md", ⟨"y", 7⟩)])],
        [], [("nova_letter_old.md", 3)]⟩ (by decide) (by decide)⟩

end StudySync
